import Mathlib

/-!
Verification development for the fslib virtual-filesystem library.

The definitions below are a shallow embedding of the Python sources
(fslib/helpers.py, fslib/base.py, fslib/stacking.py, fslib/exceptions.py)
into Lean.  Pure functions become Lean functions; mutable objects become
explicit state records threaded through the operations; Python exceptions
become an error type carried in Except.  Machine integers in the source
are small non-negative mode masks, embedded as Nat with bitwise operators.
Timestamps (floats from time.time) are never inspected by any property
considered here and are omitted from the stat record.
-/

set_option autoImplicit false

namespace Fslib

/-! Part 1: path utilities (posixpath plus fslib.helpers). -/

def ROOT : String := "/"

/-- Instance making equality of embedded results decidable, so concrete
runs can be settled by evaluation. -/
instance {ε α : Type} [DecidableEq ε] [DecidableEq α] : DecidableEq (Except ε α) :=
  fun x y =>
    match x, y with
    | .ok a, .ok b =>
        if h : a = b then .isTrue (by rw [h])
        else .isFalse (by intro hc; cases hc; exact h rfl)
    | .error a, .error b =>
        if h : a = b then .isTrue (by rw [h])
        else .isFalse (by intro hc; cases hc; exact h rfl)
    | .ok _, .error _ => .isFalse (by intro hc; cases hc)
    | .error _, .ok _ => .isFalse (by intro hc; cases hc)

/-- Kernel-reducible substring take (character counted), matching Python
slicing from the left. -/
def strTake (s : String) (n : Nat) : String := String.mk (s.data.take n)

/-- Kernel-reducible substring drop (character counted), matching Python
slicing past an index. -/
def strDrop (s : String) (n : Nat) : String := String.mk (s.data.drop n)

/-- posixpath.isabs: a path is absolute iff it starts with a slash. -/
def isabs (p : String) : Bool :=
  match p.data with
  | '/' :: _ => true
  | _ => false

/-- Characters after the last slash, that is the tail of os.path.split. -/
def splitTailChars (cs : List Char) : List Char :=
  (cs.reverse.takeWhile (fun c => c ≠ '/')).reverse

/-- Remove trailing slashes, mirroring str.rstrip applied with a slash. -/
def rstripSlashes (cs : List Char) : List Char :=
  (cs.reverse.dropWhile (fun c => c = '/')).reverse

/-- Characters of the raw head of os.path.split, before trailing slashes
are stripped. -/
def headRawChars (cs : List Char) : List Char :=
  cs.take (cs.length - (splitTailChars cs).length)

/-- Head part of os.path.split on character lists: everything up to and
including the last slash, with trailing slashes removed unless the head
consists only of slashes. -/
def splitHeadChars (cs : List Char) : List Char :=
  if headRawChars cs ≠ [] ∧ (headRawChars cs).any (fun c => c ≠ '/') then
    rstripSlashes (headRawChars cs)
  else headRawChars cs

/-- os.path.split for POSIX paths. -/
def posixSplit (p : String) : String × String :=
  (String.mk (splitHeadChars p.data), String.mk (splitTailChars p.data))

/-- os.path.dirname. -/
def dirname (p : String) : String := (posixSplit p).1

/-- os.path.basename. -/
def basename (p : String) : String := (posixSplit p).2

/-- Whether the last character of a string is a slash. -/
def endsWithSlash (a : String) : Bool :=
  match a.data.getLast? with
  | some '/' => true
  | _ => false

/-- os.path.join restricted to two arguments, as used by the sources. -/
def posixJoin (a b : String) : String :=
  if isabs b then b
  else if a = "" ∨ endsWithSlash a then a ++ b
  else a ++ "/" ++ b

/-- str.split on the slash character: returns the pieces between slashes,
including empty pieces, exactly like the Python method with a separator. -/
def splitOnSlashAux : List Char → List Char → List String
  | [], acc => [String.mk acc.reverse]
  | c :: rest, acc =>
      if c = '/' then String.mk acc.reverse :: splitOnSlashAux rest []
      else splitOnSlashAux rest (c :: acc)

def splitOnSlash (cs : List Char) : List String := splitOnSlashAux cs []

/-- Repeat the slash character n times, as the Python expression building
the leading slashes of a normalized path does. -/
def slashes : Nat → String
  | 0 => ""
  | n + 1 => "/" ++ slashes n

/-- Join path components with slashes (str.join with a slash). -/
def intercalateSlash : List String → String
  | [] => ""
  | [x] => x
  | x :: rest => x ++ "/" ++ intercalateSlash rest

/-- The component-collapsing loop of posixpath.normpath. -/
def normpathComps (initialSlashes : Nat) (comps : List String) : List String :=
  comps.foldl
    (fun acc comp =>
      if comp = "" ∨ comp = "." then acc
      else if comp ≠ ".." ∨ (initialSlashes = 0 ∧ acc = []) ∨
          (acc ≠ [] ∧ acc.getLast? = some "..") then acc ++ [comp]
      else if acc ≠ [] then acc.dropLast
      else acc)
    []

/-- Leading-slash count of posixpath.normpath: one slash for an absolute
path, except that exactly two leading slashes are preserved. -/
def initialSlashesOf (cs : List Char) : Nat :=
  match cs with
  | '/' :: '/' :: '/' :: _ => 1
  | '/' :: '/' :: _ => 2
  | '/' :: _ => 1
  | _ => 0

/-- The final fallback of posixpath.normpath: return the path, or a dot
when it came out empty. -/
def orDot (res : String) : String := if res = "" then "." else res

/-- posixpath.normpath. -/
def posixNormpath (p : String) : String :=
  if p = "" then "." else
  orDot (slashes (initialSlashesOf p.data) ++
    intercalateSlash (normpathComps (initialSlashesOf p.data) (splitOnSlash p.data)))

/-- fslib.helpers.normpath: the path is passed to os.path.normpath only
when it is not absolute; absolute paths are returned unchanged. -/
def normpath (p : String) : String :=
  if isabs p then p else posixNormpath p

/-- posixpath.abspath; the current working directory (os.getcwd) is an
ambient value of the process and is passed explicitly here. -/
def posixAbspath (cwd p : String) : String :=
  if isabs p then posixNormpath p else posixNormpath (posixJoin cwd p)

/-- Length of the longest common prefix of two component lists; this is
what os.path.commonprefix computes on a pair of lists. -/
def commonPrefixLen : List String → List String → Nat
  | a :: as, b :: bs => if a = b then commonPrefixLen as bs + 1 else 0
  | _, _ => 0

inductive Errno where
  | EACCES | EBUSY | EEXIST | EINVAL | EISDIR | ENOENT | ENOTDIR | ENOTEMPTY | EROFS
  deriving DecidableEq, Repr

/-- Errors raised by the embedded code.  The os constructor covers the
OSError values built by fslib.exceptions; deleted is DeletedObjectError
(an OSError subclass whose errno is ENOENT); fsError is exceptions.FSError
(an OSError subclass with no errno); the remaining constructors are
ordinary Python exceptions that are not OSError instances. -/
inductive Err where
  | os (code : Errno)
  | deleted
  | fsError
  | typeError
  | attributeError
  | assertionError
  | valueError
  | keyError
  | recursionError
  | internalHeap
  deriving DecidableEq, Repr

/-- The errno attribute of an error, when the error is an OSError whose
errno was set. -/
def errnoOf : Err → Option Errno
  | .os c => some c
  | .deleted => some .ENOENT
  | _ => none

/-- Whether an except clause for OSError catches this error. -/
def isOSErrorClass : Err → Bool
  | .os _ => true
  | .deleted => true
  | .fsError => true
  | _ => false

/-- posixpath.relpath; raises ValueError on an empty path. -/
def posixRelpath (cwd path start : String) : Except Err String :=
  if path = "" then .error .valueError
  else
    let startList := (splitOnSlash (posixAbspath cwd start).data).filter (fun x => x ≠ "")
    let pathList := (splitOnSlash (posixAbspath cwd path).data).filter (fun x => x ≠ "")
    let i := commonPrefixLen startList pathList
    let relList := List.replicate (startList.length - i) ".." ++ pathList.drop i
    if relList = [] then .ok "." else .ok (intercalateSlash relList)

/-- fslib.helpers.is_parent: dir2 is under dir1 iff the relative path from
dir1 to dir2 does not start with two dots. -/
def is_parent (cwd dir1 dir2 : String) : Except Err Bool :=
  match posixRelpath cwd dir2 dir1 with
  | .error e => .error e
  | .ok rp => .ok (rp = "" ∨ ¬ (strTake rp 2 = ".."))

/-- fslib.helpers.is_readonly_open_mode: the character set of the mode
string is a proper subset of the three characters r, b, t. -/
def is_readonly_open_mode (mode : String) : Bool :=
  (mode.data.all (fun c => c = 'r' ∨ c = 'b' ∨ c = 't')) ∧
    ¬ ('r' ∈ mode.data ∧ 'b' ∈ mode.data ∧ 't' ∈ mode.data)

/-- The loop of BaseFS.iter_path for a non-empty path: the current path is
recorded, then the loop continues on the head of os.path.split while the
split produced a non-empty tail.  The recursion is driven by a fuel that
the caller sets above the path length; the lemma below shows the head of
a split with a non-empty tail is strictly shorter, so the fuel never runs
out and the result does not depend on it. -/
def iterPathAux : Nat → String → List String
  | 0, _ => []
  | fuel + 1, p =>
      if (posixSplit p).2 = "" then [p]
      else iterPathAux fuel (posixSplit p).1 ++ [p]

/-- BaseFS.iter_path: the list of ancestors of a path, from the root down
to the path itself.  An empty input path yields no components because the
loop condition fails immediately. -/
def iterPath (p : String) : List String :=
  if p = "" then [] else iterPathAux (p.length + 1) p

/-! Part 2: mode constants from the stat and os modules. -/

def F_OK : Nat := 0
def R_OK : Nat := 4
def W_OK : Nat := 2
def X_OK : Nat := 1

def S_IFMT : Nat := 0o170000
def S_IFREG : Nat := 0o100000
def S_IFDIR : Nat := 0o040000
def S_IFLNK : Nat := 0o120000
def S_ISGID : Nat := 0o2000
def S_IRWXU : Nat := 0o700
def S_IRUSR : Nat := 0o400
def S_IWUSR : Nat := 0o200
def S_IXUSR : Nat := 0o100
def S_IRWXG : Nat := 0o70
def S_IRGRP : Nat := 0o40
def S_IWGRP : Nat := 0o20
def S_IXGRP : Nat := 0o10
def S_IRWXO : Nat := 0o7
def S_IROTH : Nat := 0o4
def S_IWOTH : Nat := 0o2
def S_IXOTH : Nat := 0o1

def S_ISDIR (m : Nat) : Bool := m &&& S_IFMT = S_IFDIR
def S_ISREG (m : Nat) : Bool := m &&& S_IFMT = S_IFREG
def S_ISLNK (m : Nat) : Bool := m &&& S_IFMT = S_IFLNK
def S_IMODE (m : Nat) : Nat := m &&& 0o7777

/-- BaseFS.default_dir_mode: the source computes drwxrwxrwx AND the stored
default umask. -/
def default_dir_mode (umask : Nat) : Nat :=
  (S_IRWXU ||| S_IRWXG ||| S_IRWXO) &&& umask

/-- BaseFS.default_file_mode: the source computes rw-rw-rw- AND the stored
default umask. -/
def default_file_mode (umask : Nat) : Nat :=
  (S_IRUSR ||| S_IWUSR ||| S_IRGRP ||| S_IWGRP ||| S_IROTH ||| S_IWOTH) &&& umask

/-- BaseFS.default_symlink_mode: lrwxrwxrwx, independent of the umask. -/
def default_symlink_mode : Nat := S_IRWXU ||| S_IRWXG ||| S_IRWXO

/-! Part 3: the MemoryFS object tree.

Python objects are mutable and shared: the same FakeFSObject is reachable
both from its parent directory (FakeDir.contents) and from the path index
(MemoryFS._full_map).  We model the heap explicitly: objects live in an
association list keyed by an allocation reference, directories hold child
name to reference entries, and the path index maps paths to references.
Allocation picks a reference larger than every existing one, matching the
freshness of Python object identities.  The path attribute stored on each
object (used by the source only to format error messages) and the three
float timestamps (never read by any property here) are omitted. -/

/-- The ambient process identity returned by os.getuid and os.getgid. -/
structure Ctx where
  uid : Nat
  gid : Nat
  deriving DecidableEq, Repr

/-- FakeFSObject variants.  The size field mirrors the private size
attribute, which the source initializes to zero and never updates. -/
inductive FakeObj where
  | file (mode uid gid size : Nat) (content : List Nat) (pos : Nat)
  | dir (mode uid gid size : Nat) (contents : List (String × Nat))
  | symlink (mode uid gid size : Nat) (target : String)
  deriving DecidableEq, Repr

def FakeObj.objMode : FakeObj → Nat
  | .file m _ _ _ _ _ => m
  | .dir m _ _ _ _ => m
  | .symlink m _ _ _ _ => m

def FakeObj.objUid : FakeObj → Nat
  | .file _ u _ _ _ _ => u
  | .dir _ u _ _ _ => u
  | .symlink _ u _ _ _ => u

def FakeObj.objGid : FakeObj → Nat
  | .file _ _ g _ _ _ => g
  | .dir _ _ g _ _ => g
  | .symlink _ _ g _ _ => g

def FakeObj.objSize : FakeObj → Nat
  | .file _ _ _ s _ _ => s
  | .dir _ _ _ s _ => s
  | .symlink _ _ _ s _ => s

def FakeObj.isDirO : FakeObj → Bool
  | .dir _ _ _ _ _ => true
  | _ => false

def FakeObj.isFileO : FakeObj → Bool
  | .file _ _ _ _ _ _ => true
  | _ => false

def FakeObj.isSymlinkO : FakeObj → Bool
  | .symlink _ _ _ _ _ => true
  | _ => false

/-- FakeFSObject.chmod stores the new mode verbatim, without re-adding the
file-type bits of BASE_ST_MOD. -/
def FakeObj.withMode (o : FakeObj) (m : Nat) : FakeObj :=
  match o with
  | .file _ u g s c p => .file m u g s c p
  | .dir _ u g s cs => .dir m u g s cs
  | .symlink _ u g s t => .symlink m u g s t

def FakeObj.withOwner (o : FakeObj) (u g : Nat) : FakeObj :=
  match o with
  | .file m _ _ s c p => .file m u g s c p
  | .dir m _ _ s cs => .dir m u g s cs
  | .symlink m _ _ s t => .symlink m u g s t

/-- The stat record; only the fields the verified properties inspect. -/
structure StatR where
  mode : Nat
  uid : Nat
  gid : Nat
  size : Nat
  deriving DecidableEq, Repr

def objStatFields (o : FakeObj) : StatR :=
  ⟨o.objMode, o.objUid, o.objGid, o.objSize⟩

/-- stacking.py top-level helper _has_access, verbatim. -/
def has_access (mode uid gid targetMode targetUid targetGid : Nat) : Bool :=
  if uid = targetUid ∧ (mode &&& targetMode &&& S_IRWXU) ≠ 0 then true
  else if gid = targetGid ∧ (mode &&& targetMode &&& S_IRWXG) ≠ 0 then true
  else (mode &&& targetMode &&& S_IRWXO) ≠ 0

/-- FakeFSObject.access. -/
def objAccess (ctx : Ctx) (o : FakeObj) (mode : Nat) : Bool :=
  if mode = F_OK then true
  else
    let targetMode :=
      (if mode &&& R_OK ≠ 0 then S_IRUSR ||| S_IRGRP ||| S_IROTH else 0) |||
      (if mode &&& W_OK ≠ 0 then S_IWUSR ||| S_IWGRP ||| S_IWOTH else 0) |||
      (if mode &&& X_OK ≠ 0 then S_IXUSR ||| S_IXGRP ||| S_IXOTH else 0)
    has_access targetMode ctx.uid ctx.gid o.objMode o.objUid o.objGid

/-- Association lookup for path-or-name keyed maps (first match). -/
def lookupS : List (String × Nat) → String → Option Nat
  | [], _ => none
  | (k, v) :: rest, q => if k = q then some v else lookupS rest q

/-- Association lookup for the heap (first match). -/
def lookupN : List (Nat × FakeObj) → Nat → Option FakeObj
  | [], _ => none
  | (k, v) :: rest, q => if k = q then some v else lookupN rest q

/-- Dictionary assignment: replace the first binding of the key, or append
a new binding. -/
def assocSetS : List (String × Nat) → String → Nat → List (String × Nat)
  | [], k, v => [(k, v)]
  | (k0, v0) :: rest, k, v =>
      if k0 = k then (k, v) :: rest else (k0, v0) :: assocSetS rest k v

/-- In-place mutation of the object at an existing heap reference. -/
def heapSet : List (Nat × FakeObj) → Nat → FakeObj → List (Nat × FakeObj)
  | [], k, v => [(k, v)]
  | (k0, v0) :: rest, k, v =>
      if k0 = k then (k, v) :: rest else (k0, v0) :: heapSet rest k v

/-- The largest allocated reference. -/
def maxKeyN : List (Nat × FakeObj) → Nat
  | [] => 0
  | (k, _) :: rest => max k (maxKeyN rest)

/-- A reference strictly larger than every allocated one: a fresh Python
object identity. -/
def freshRef (heap : List (Nat × FakeObj)) : Nat :=
  maxKeyN heap + 1

/-- The MemoryFS state: heap, path index, and the three defaults captured
at construction. -/
structure MemState where
  heap : List (Nat × FakeObj)
  fullMap : List (String × Nat)
  defaultUmask : Nat
  defaultUid : Nat
  defaultGid : Nat
  deriving DecidableEq, Repr

/-- MemoryFS.__init__: a root FakeDir at the ROOT path. -/
def memInit (umask uid gid : Nat) : MemState :=
  ⟨[(0, .dir (default_dir_mode umask ||| S_IFDIR) uid gid 0 [])],
   [(ROOT, 0)], umask, uid, gid⟩

/-- MemoryFS._get: path-index lookup, following symlink targets when asked.
The fuel bounds the recursion exactly as the Python recursion limit does;
running out raises RecursionError.  A missing path raises KeyError. -/
def memGetR (m : MemState) : Nat → String → Bool → Except Err (Nat × FakeObj)
  | 0, _, _ => .error .recursionError
  | fuel + 1, path, follow =>
      match lookupS m.fullMap path with
      | none => .error .keyError
      | some r =>
          match lookupN m.heap r with
          | none => .error .internalHeap
          | some o =>
              match o, follow with
              | .symlink _ _ _ _ tgt, true => memGetR m fuel tgt true
              | _, _ => .ok (r, o)

/-- MemoryFS._get_parent. -/
def memGetParent (fuel : Nat) (m : MemState) (path : String) :
    Except Err (Nat × FakeObj) :=
  match memGetR m fuel (dirname path) true with
  | .error .keyError => .error (.os .ENOENT)
  | .error e => .error e
  | .ok (r, o) => if o.isDirO then .ok (r, o) else .error (.os .ENOTDIR)

/-- MemoryFS._access: KeyError from the lookup yields false, every other
failure propagates. -/
def memAccessI (ctx : Ctx) (fuel : Nat) (m : MemState) (path : String)
    (mode : Nat) : Except Err Bool :=
  match memGetR m fuel path true with
  | .ok (_, o) => .ok (objAccess ctx o mode)
  | .error .keyError => .ok false
  | .error e => .error e

def memAccessPub (ctx : Ctx) (fuel : Nat) (m : MemState) (path : String)
    (mode : Nat) : Except Err Bool :=
  memAccessI ctx fuel m (normpath path) mode

/-- The stat method of a resolved FakeFSObject.  FakeSymlink.stat calls
stat on the stored target, which is a plain string and has no such
attribute, so it raises AttributeError. -/
def objStatE : FakeObj → Except Err StatR
  | .symlink _ _ _ _ _ => .error .attributeError
  | o => .ok (objStatFields o)

/-- MemoryFS._stat via _get_or_raise. -/
def memStatI (fuel : Nat) (m : MemState) (path : String) : Except Err StatR :=
  match memGetR m fuel path true with
  | .error .keyError => .error (.os .ENOENT)
  | .error e => .error e
  | .ok (_, o) => objStatE o

def memStatPub (fuel : Nat) (m : MemState) (path : String) : Except Err StatR :=
  memStatI fuel m (normpath path)

/-- MemoryFS._lstat: no symlink following; FakeFSObject.lstat succeeds on
every variant. -/
def memLstatI (fuel : Nat) (m : MemState) (path : String) : Except Err StatR :=
  match memGetR m fuel path false with
  | .error .keyError => .error (.os .ENOENT)
  | .error e => .error e
  | .ok (_, o) => .ok (objStatFields o)

def memLstatPub (fuel : Nat) (m : MemState) (path : String) : Except Err StatR :=
  memLstatI fuel m (normpath path)

/-- BaseFS.isdir on MemoryFS: public stat, then the directory bit. -/
def memIsdirPub (fuel : Nat) (m : MemState) (path : String) : Except Err Bool :=
  match memStatPub fuel m path with
  | .error e => .error e
  | .ok s => .ok (S_ISDIR s.mode)

/-- MemoryFS._readlink.  FakeSymlink.readlink returns the path attribute
of the stored target; the target is a plain string, so AttributeError.
The other variants raise EINVAL from FakeFSObject.readlink. -/
def memReadlinkI (fuel : Nat) (m : MemState) (path : String) : Except Err String :=
  match memGetR m fuel path false with
  | .error .keyError => .error (.os .ENOENT)
  | .error e => .error e
  | .ok (_, .symlink _ _ _ _ _) => .error .attributeError
  | .ok (_, _) => .error (.os .EINVAL)

def memReadlinkPub (fuel : Nat) (m : MemState) (path : String) : Except Err String :=
  memReadlinkI fuel m (normpath path)

/-- MemoryFS._listdir: the insertion-ordered child names of a directory. -/
def memListdirI (fuel : Nat) (m : MemState) (path : String) :
    Except Err (List String) :=
  match memGetR m fuel path true with
  | .error .keyError => .error (.os .ENOENT)
  | .error e => .error e
  | .ok (_, .dir _ _ _ _ cs) => .ok (cs.map Prod.fst)
  | .ok (_, _) => .error (.os .ENOTDIR)

/-- BaseFS.listdir maps convert_path_out, which is normpath, over the
yielded names. -/
def memListdirPub (fuel : Nat) (m : MemState) (path : String) :
    Except Err (List String) :=
  match memListdirI fuel m (normpath path) with
  | .error e => .error e
  | .ok items => .ok (items.map normpath)

/-- FakeDir.make_file: write permission on the directory, setgid handling,
then allocation of the new FakeFile and dictionary insertion both in the
directory contents and (by the caller) in the path index. -/
def makeFile (ctx : Ctx) (m : MemState) (parentRef : Nat) (name fullpath : String) :
    Except Err (Nat × MemState) :=
  match lookupN m.heap parentRef with
  | some (.dir pm pu pg ps cs) =>
      if ¬ objAccess ctx (.dir pm pu pg ps cs) W_OK then .error (.os .EACCES)
      else
        let gid := if pm &&& S_ISGID ≠ 0 then pg else m.defaultGid
        let newObj : FakeObj :=
          .file (default_file_mode m.defaultUmask ||| S_IFREG) m.defaultUid gid 0 [] 0
        let r := freshRef m.heap
        .ok (r,
          ⟨heapSet m.heap parentRef (.dir pm pu pg ps (assocSetS cs name r)) ++ [(r, newObj)],
           assocSetS m.fullMap fullpath r,
           m.defaultUmask, m.defaultUid, m.defaultGid⟩)
  | some _ => .error .attributeError
  | none => .error .internalHeap

/-- FakeDir.make_subdir, analogous to make_file. -/
def makeSubdir (ctx : Ctx) (m : MemState) (parentRef : Nat) (name fullpath : String) :
    Except Err (Nat × MemState) :=
  match lookupN m.heap parentRef with
  | some (.dir pm pu pg ps cs) =>
      if ¬ objAccess ctx (.dir pm pu pg ps cs) W_OK then .error (.os .EACCES)
      else
        let gid := if pm &&& S_ISGID ≠ 0 then pg else m.defaultGid
        let newObj : FakeObj :=
          .dir (default_dir_mode m.defaultUmask ||| S_IFDIR) m.defaultUid gid 0 []
        let r := freshRef m.heap
        .ok (r,
          ⟨heapSet m.heap parentRef (.dir pm pu pg ps (assocSetS cs name r)) ++ [(r, newObj)],
           assocSetS m.fullMap fullpath r,
           m.defaultUmask, m.defaultUid, m.defaultGid⟩)
  | some _ => .error .attributeError
  | none => .error .internalHeap

/-- MemoryFS._get_or_create_file. -/
def memGetOrCreateFile (ctx : Ctx) (fuel : Nat) (m : MemState) (path mode : String) :
    Except Err (Nat × MemState) :=
  match memGetR m fuel path true with
  | .ok (r, _) => .ok (r, m)
  | .error .keyError =>
      if is_readonly_open_mode mode then .error (.os .ENOENT)
      else
        match memGetParent fuel m path with
        | .error e => .error e
        | .ok (pr, _) => makeFile ctx m pr (basename path) path
  | .error e => .error e

/-- MemoryFS._open_binary: resolve or create the file, then
FakeFile.open_binary, which checks write permission for non-read-only
modes and hands out the shared buffer.  The returned handle is the heap
reference of the file whose BytesIO the BufferWrapper aliases.  A resolved
non-file target has no open_binary attribute. -/
def memOpenBinaryI (ctx : Ctx) (fuel : Nat) (m : MemState) (path mode : String) :
    Except Err (Nat × MemState) :=
  match memGetOrCreateFile ctx fuel m path mode with
  | .error e => .error e
  | .ok (r, m2) =>
      match lookupN m2.heap r with
      | some (.file fm fu fg fs c p) =>
          if ¬ is_readonly_open_mode mode ∧
              ¬ objAccess ctx (.file fm fu fg fs c p) W_OK then
            .error (.os .EACCES)
          else .ok (r, m2)
      | some _ => .error .attributeError
      | none => .error .internalHeap

def memOpenBinaryPub (ctx : Ctx) (fuel : Nat) (m : MemState) (path mode : String) :
    Except Err (Nat × MemState) :=
  memOpenBinaryI ctx fuel m (normpath path) mode

/-- BytesIO.write through a BufferWrapper handle: overwrite at the current
position (zero-padding any gap) and advance the position. -/
def bufWrite (m : MemState) (r : Nat) (bs : List Nat) : Except Err MemState :=
  match lookupN m.heap r with
  | some (.file fm fu fg fs content pos) =>
      let padded :=
        if content.length < pos then content ++ List.replicate (pos - content.length) 0
        else content
      let content2 := padded.take pos ++ bs ++ padded.drop (pos + bs.length)
      .ok ⟨heapSet m.heap r (.file fm fu fg fs content2 (pos + bs.length)),
           m.fullMap, m.defaultUmask, m.defaultUid, m.defaultGid⟩
  | some _ => .error .attributeError
  | none => .error .internalHeap

/-- BytesIO.read with no size argument: everything from the current
position, which then moves to the end of the buffer. -/
def bufRead (m : MemState) (r : Nat) : Except Err (List Nat × MemState) :=
  match lookupN m.heap r with
  | some (.file fm fu fg fs content pos) =>
      .ok (content.drop pos,
        ⟨heapSet m.heap r (.file fm fu fg fs content content.length),
         m.fullMap, m.defaultUmask, m.defaultUid, m.defaultGid⟩)
  | some _ => .error .attributeError
  | none => .error .internalHeap

/-- MemoryFS._chmod through FakeFSObject.chmod: write permission on the
resolved object, then the raw mode is stored. -/
def memChmodI (ctx : Ctx) (fuel : Nat) (m : MemState) (path : String) (mode : Nat) :
    Except Err MemState :=
  match memGetR m fuel path true with
  | .error .keyError => .error (.os .ENOENT)
  | .error e => .error e
  | .ok (r, o) =>
      if ¬ objAccess ctx o W_OK then .error (.os .EACCES)
      else .ok ⟨heapSet m.heap r (o.withMode mode), m.fullMap,
                m.defaultUmask, m.defaultUid, m.defaultGid⟩

def memChmodPub (ctx : Ctx) (fuel : Nat) (m : MemState) (path : String) (mode : Nat) :
    Except Err MemState :=
  memChmodI ctx fuel m (normpath path) mode

/-- MemoryFS._chown through FakeFSObject.chown. -/
def memChownI (ctx : Ctx) (fuel : Nat) (m : MemState) (path : String) (uid gid : Nat) :
    Except Err MemState :=
  match memGetR m fuel path true with
  | .error .keyError => .error (.os .ENOENT)
  | .error e => .error e
  | .ok (r, o) =>
      if ¬ objAccess ctx o W_OK then .error (.os .EACCES)
      else .ok ⟨heapSet m.heap r (o.withOwner uid gid), m.fullMap,
                m.defaultUmask, m.defaultUid, m.defaultGid⟩

def memChownPub (ctx : Ctx) (fuel : Nat) (m : MemState) (path : String) (uid gid : Nat) :
    Except Err MemState :=
  memChownI ctx fuel m (normpath path) uid gid

/-- MemoryFS._mkdir: resolve the parent, then FakeDir.make_subdir and the
path-index insertion.  Note the source performs no existence check on the
target path: an existing entry of the same name is silently replaced. -/
def memMkdirI (ctx : Ctx) (fuel : Nat) (m : MemState) (path : String) :
    Except Err MemState :=
  match memGetParent fuel m path with
  | .error e => .error e
  | .ok (pr, _) =>
      match makeSubdir ctx m pr (basename path) path with
      | .error e => .error e
      | .ok (_, m2) => .ok m2

def memMkdirPub (ctx : Ctx) (fuel : Nat) (m : MemState) (path : String) :
    Except Err MemState :=
  memMkdirI ctx fuel m (normpath path)

/-- MemoryFS._symlink: parent resolution, duplicate-name check, then
FakeDir.make_symlink, whose construction of FakeSymlink omits the path
argument required by FakeFSObject.__init__ and therefore raises TypeError
after the write-permission check. -/
def memSymlinkI (ctx : Ctx) (fuel : Nat) (m : MemState) (link : String)
    (_target : String) : Except Err MemState :=
  match memGetParent fuel m link with
  | .error e => .error e
  | .ok (_, .dir pm pu pg ps cs) =>
      if (lookupS cs (basename link)).isSome then .error (.os .EEXIST)
      else if ¬ objAccess ctx (.dir pm pu pg ps cs) W_OK then .error (.os .EACCES)
      else .error .typeError
  | .ok (_, _) => .error .internalHeap

/-- BaseFS.symlink converts both the link name and the target. -/
def memSymlinkPub (ctx : Ctx) (fuel : Nat) (m : MemState) (link target : String) :
    Except Err MemState :=
  memSymlinkI ctx fuel m (normpath link) (normpath target)

/-! Part 4: WhiteoutFS over a MemoryFS inner filesystem.

The whiteout cache is the in-memory set variant: membership, add, and
discard are all the structure offers, so a list with membership semantics
embeds it.  The wrapped filesystem in every stack considered here is a
MemoryFS, whose read operations are pure, so they take the inner state
without returning it. -/

structure WFS where
  cache : List String
  mem : MemState
  deriving DecidableEq, Repr

/-- WhiteoutFS._check_component: whiteout membership first, then, for
ancestor components, the wrapped isdir check, whose failure propagates
even before the path is compared with the root.  The cache and the inner
state are passed separately to keep the frame lemmas direct. -/
def wCheckComponent (fuel : Nat) (cache : List String) (mem : MemState)
    (path : String) (ensureDir : Bool) : Except Err Unit :=
  if path ∈ cache then .error .deleted
  else if ensureDir then
    match memIsdirPub fuel mem path with
    | .error e => .error e
    | .ok d => if ¬ d ∧ path ≠ ROOT then .error (.os .ENOTDIR) else .ok ()
  else .ok ()

/-- The loop of WhiteoutFS._check_path over an explicit component list;
the directory requirement applies to every component except the full
path itself. -/
def wCheckList (fuel : Nat) (cache : List String) (mem : MemState) (top : String) :
    List String → Except Err Unit
  | [] => .ok ()
  | part :: rest =>
      match wCheckComponent fuel cache mem part (top ≠ part) with
      | .error e => .error e
      | .ok () => wCheckList fuel cache mem top rest

/-- WhiteoutFS._check_path. -/
def wCheckPath (fuel : Nat) (cache : List String) (mem : MemState) (path : String) :
    Except Err Unit :=
  wCheckList fuel cache mem path (iterPath path)

/-- Whether WhiteoutFS._access converts this failure into false. -/
def accessSwallows (e : Err) : Bool :=
  match errnoOf e with
  | some .ENOTDIR => true
  | some .ENOENT => true
  | some .EACCES => true
  | _ => false

/-- WhiteoutFS._access. -/
def wAccessI (ctx : Ctx) (fuel : Nat) (w : WFS) (path : String) (mode : Nat) :
    Except Err Bool :=
  match wCheckPath fuel w.cache w.mem path with
  | .error e => if accessSwallows e then .ok false else .error e
  | .ok () => memAccessPub ctx fuel w.mem path mode

def wAccessPub (ctx : Ctx) (fuel : Nat) (w : WFS) (path : String) (mode : Nat) :
    Except Err Bool :=
  wAccessI ctx fuel w (normpath path) mode

/-- WhiteoutFS._stat under _manage_whiteout with for_creation false. -/
def wStatI (fuel : Nat) (w : WFS) (path : String) : Except Err StatR :=
  match wCheckPath fuel w.cache w.mem path with
  | .error e => .error e
  | .ok () => memStatPub fuel w.mem path

def wStatPub (fuel : Nat) (w : WFS) (path : String) : Except Err StatR :=
  wStatI fuel w (normpath path)

/-- BaseFS.isdir on the whiteout layer. -/
def wIsdirPub (fuel : Nat) (w : WFS) (path : String) : Except Err Bool :=
  match wStatPub fuel w path with
  | .error e => .error e
  | .ok s => .ok (S_ISDIR s.mode)

/-- WhiteoutFS._lstat. -/
def wLstatI (fuel : Nat) (w : WFS) (path : String) : Except Err StatR :=
  match wCheckPath fuel w.cache w.mem path with
  | .error e => .error e
  | .ok () => memLstatPub fuel w.mem path

def wLstatPub (fuel : Nat) (w : WFS) (path : String) : Except Err StatR :=
  wLstatI fuel w (normpath path)

/-- WhiteoutFS._readlink. -/
def wReadlinkI (fuel : Nat) (w : WFS) (path : String) : Except Err String :=
  match wCheckPath fuel w.cache w.mem path with
  | .error e => .error e
  | .ok () => memReadlinkPub fuel w.mem path

def wReadlinkPub (fuel : Nat) (w : WFS) (path : String) : Except Err String :=
  wReadlinkI fuel w (normpath path)

/-- WhiteoutFS._listdir: after the path check, the inner listing is
filtered by cache membership of the bare child name; note the source
compares the yielded name, not the full child path, with the cache. -/
def wListdirI (fuel : Nat) (w : WFS) (path : String) : Except Err (List String) :=
  match wCheckPath fuel w.cache w.mem path with
  | .error e => .error e
  | .ok () =>
      match memListdirPub fuel w.mem path with
      | .error e => .error e
      | .ok items => .ok (items.filter (fun it => it ∉ w.cache))

def wListdirPub (fuel : Nat) (w : WFS) (path : String) : Except Err (List String) :=
  match wListdirI fuel w (normpath path) with
  | .error e => .error e
  | .ok items => .ok (items.map normpath)

/-- The body of WhiteoutFS._open_binary after the for_creation flag has
been computed: check the parent for creations or the path itself for
plain opens, forward to the inner open, and on success resurrect the
path by discarding it from the cache when creating. -/
def wOpenRest (ctx : Ctx) (fuel : Nat) (w : WFS) (path mode : String)
    (forCreation : Bool) : Except Err (Nat × WFS) :=
  if forCreation then
    match wCheckPath fuel w.cache w.mem (dirname path) with
    | .error e => .error e
    | .ok () =>
        match memOpenBinaryPub ctx fuel w.mem path mode with
        | .error e => .error e
        | .ok (r, m2) => .ok (r, ⟨w.cache.filter (fun q => q ≠ path), m2⟩)
  else
    match wCheckPath fuel w.cache w.mem path with
    | .error e => .error e
    | .ok () =>
        match memOpenBinaryPub ctx fuel w.mem path mode with
        | .error e => .error e
        | .ok (r, m2) => .ok (r, ⟨w.cache, m2⟩)

/-- WhiteoutFS._open_binary: for_creation is true iff the mode is not
read-only and the path is not currently accessible from this layer; the
or-expression short-circuits, so access is only consulted for non-read
modes. -/
def wOpenBinaryI (ctx : Ctx) (fuel : Nat) (w : WFS) (path mode : String) :
    Except Err (Nat × WFS) :=
  if is_readonly_open_mode mode then
    wOpenRest ctx fuel w path mode false
  else
    match wAccessPub ctx fuel w path F_OK with
    | .error e => .error e
    | .ok b => wOpenRest ctx fuel w path mode (! b)

def wOpenBinaryPub (ctx : Ctx) (fuel : Nat) (w : WFS) (path mode : String) :
    Except Err (Nat × WFS) :=
  wOpenBinaryI ctx fuel w (normpath path) mode

/-- WhiteoutFS._chmod. -/
def wChmodI (ctx : Ctx) (fuel : Nat) (w : WFS) (path : String) (mode : Nat) :
    Except Err WFS :=
  match wCheckPath fuel w.cache w.mem path with
  | .error e => .error e
  | .ok () =>
      match memChmodPub ctx fuel w.mem path mode with
      | .error e => .error e
      | .ok m2 => .ok ⟨w.cache, m2⟩

def wChmodPub (ctx : Ctx) (fuel : Nat) (w : WFS) (path : String) (mode : Nat) :
    Except Err WFS :=
  wChmodI ctx fuel w (normpath path) mode

/-- WhiteoutFS._chown. -/
def wChownI (ctx : Ctx) (fuel : Nat) (w : WFS) (path : String) (uid gid : Nat) :
    Except Err WFS :=
  match wCheckPath fuel w.cache w.mem path with
  | .error e => .error e
  | .ok () =>
      match memChownPub ctx fuel w.mem path uid gid with
      | .error e => .error e
      | .ok m2 => .ok ⟨w.cache, m2⟩

def wChownPub (ctx : Ctx) (fuel : Nat) (w : WFS) (path : String) (uid gid : Nat) :
    Except Err WFS :=
  wChownI ctx fuel w (normpath path) uid gid

/-- WhiteoutFS._mkdir: parent check, inner mkdir, then resurrection. -/
def wMkdirI (ctx : Ctx) (fuel : Nat) (w : WFS) (path : String) : Except Err WFS :=
  match wCheckPath fuel w.cache w.mem (dirname path) with
  | .error e => .error e
  | .ok () =>
      match memMkdirPub ctx fuel w.mem path with
      | .error e => .error e
      | .ok m2 => .ok ⟨w.cache.filter (fun q => q ≠ path), m2⟩

def wMkdirPub (ctx : Ctx) (fuel : Nat) (w : WFS) (path : String) : Except Err WFS :=
  wMkdirI ctx fuel w (normpath path)

/-- WhiteoutFS._symlink: parent check, then the inner symlink call. -/
def wSymlinkI (ctx : Ctx) (fuel : Nat) (w : WFS) (link target : String) :
    Except Err WFS :=
  match wCheckPath fuel w.cache w.mem (dirname link) with
  | .error e => .error e
  | .ok () =>
      match memSymlinkPub ctx fuel w.mem link target with
      | .error e => .error e
      | .ok m2 => .ok ⟨w.cache.filter (fun q => q ≠ link), m2⟩

def wSymlinkPub (ctx : Ctx) (fuel : Nat) (w : WFS) (link target : String) :
    Except Err WFS :=
  wSymlinkI ctx fuel w (normpath link) (normpath target)

/-- WhiteoutFS._unlink: the existence check of this layer, then the path
is added to the whiteout cache.  No deletion reaches the inner
filesystem. -/
def wUnlinkI (fuel : Nat) (w : WFS) (path : String) : Except Err WFS :=
  match wCheckPath fuel w.cache w.mem path with
  | .error e => .error e
  | .ok () => .ok ⟨path :: w.cache, w.mem⟩

def wUnlinkPub (fuel : Nat) (w : WFS) (path : String) : Except Err WFS :=
  wUnlinkI fuel w (normpath path)

/-! Part 5: ReadOnlyFS and ChrootFS. -/

/-- ReadOnlyFS._access over an arbitrary wrapped access operation: any
mask containing the write bit is answered false before the wrapped
filesystem is consulted. -/
def readonlyAccessI (wrapped : String → Nat → Except Err Bool) (path : String)
    (mode : Nat) : Except Err Bool :=
  if mode &&& W_OK ≠ 0 then .ok false else wrapped path mode

/-- The public access of a ReadOnlyFS: BaseFS.access normalizes the
incoming path, then calls the overridden internal access. -/
def readonlyAccessPub (wrapped : String → Nat → Except Err Bool) (path : String)
    (mode : Nat) : Except Err Bool :=
  readonlyAccessI wrapped (normpath path) mode

/-- ReadOnlyFS over a MemoryFS: concrete instances of the forwarding
wrapper used as a union branch. -/
def roAccessPub (ctx : Ctx) (fuel : Nat) (m : MemState) (path : String)
    (mode : Nat) : Except Err Bool :=
  readonlyAccessPub (fun p md => memAccessPub ctx fuel m p md) path mode

def roStatPub (fuel : Nat) (m : MemState) (path : String) : Except Err StatR :=
  memStatPub fuel m (normpath path)

def roLstatPub (fuel : Nat) (m : MemState) (path : String) : Except Err StatR :=
  memLstatPub fuel m (normpath path)

def roReadlinkPub (fuel : Nat) (m : MemState) (path : String) : Except Err String :=
  memReadlinkPub fuel m (normpath path)

def roIsdirPub (fuel : Nat) (m : MemState) (path : String) : Except Err Bool :=
  match roStatPub fuel m path with
  | .error e => .error e
  | .ok s => .ok (S_ISDIR s.mode)

def roListdirPub (fuel : Nat) (m : MemState) (path : String) :
    Except Err (List String) :=
  match memListdirPub fuel m (normpath path) with
  | .error e => .error e
  | .ok items => .ok (items.map normpath)

/-- ReadOnlyFS._open_binary: EROFS for any mode that is not read-only. -/
def roOpenBinaryPub (ctx : Ctx) (fuel : Nat) (m : MemState) (path mode : String) :
    Except Err (Nat × MemState) :=
  if ¬ is_readonly_open_mode mode then .error (.os .EROFS)
  else memOpenBinaryPub ctx fuel m (normpath path) mode

/-- ChrootFS.convert_path_in: reject paths outside the external root with
EACCES, then join the internal root with the character suffix of the
path beyond the external root. -/
def chrootConvertIn (cwd externalRoot internalRoot path : String) :
    Except Err String :=
  match is_parent cwd externalRoot path with
  | .error e => .error e
  | .ok b =>
      if ¬ b then .error (.os .EACCES)
      else .ok (posixJoin internalRoot (strDrop path externalRoot.length))

/-! Part 6: UnionFS.

Branches hold either a whiteout-over-memory stack (the writable shape) or
a read-only-over-memory stack, the two shapes the verified scenarios use.
The branch list models _sorted_branches, already in ascending rank order;
mutation of a branch filesystem is an in-place update at its position. -/

inductive BranchFS where
  | wfs (w : WFS)
  | rofs (m : MemState)
  deriving DecidableEq, Repr

structure Branch where
  rank : Nat
  writable : Bool
  fs : BranchFS
  deriving DecidableEq, Repr

structure UState where
  branches : List Branch
  strict : Bool
  deriving DecidableEq, Repr

def bStatPub (fuel : Nat) : BranchFS → String → Except Err StatR
  | .wfs w, p => wStatPub fuel w p
  | .rofs m, p => roStatPub fuel m p

def bLstatPub (fuel : Nat) : BranchFS → String → Except Err StatR
  | .wfs w, p => wLstatPub fuel w p
  | .rofs m, p => roLstatPub fuel m p

def bReadlinkPub (fuel : Nat) : BranchFS → String → Except Err String
  | .wfs w, p => wReadlinkPub fuel w p
  | .rofs m, p => roReadlinkPub fuel m p

def bAccessPub (ctx : Ctx) (fuel : Nat) : BranchFS → String → Nat → Except Err Bool
  | .wfs w, p, md => wAccessPub ctx fuel w p md
  | .rofs m, p, md => roAccessPub ctx fuel m p md

def bIsdirPub (fuel : Nat) : BranchFS → String → Except Err Bool
  | .wfs w, p => wIsdirPub fuel w p
  | .rofs m, p => roIsdirPub fuel m p

def bListdirPub (fuel : Nat) : BranchFS → String → Except Err (List String)
  | .wfs w, p => wListdirPub fuel w p
  | .rofs m, p => roListdirPub fuel m p

def bMkdirPub (ctx : Ctx) (fuel : Nat) : BranchFS → String → Except Err BranchFS
  | .wfs w, p =>
      match wMkdirPub ctx fuel w p with
      | .error e => .error e
      | .ok w2 => .ok (.wfs w2)
  | .rofs _, p =>
      match p with
      | _ => .error (.os .EROFS)

def bChmodPub (ctx : Ctx) (fuel : Nat) : BranchFS → String → Nat → Except Err BranchFS
  | .wfs w, p, md =>
      match wChmodPub ctx fuel w p md with
      | .error e => .error e
      | .ok w2 => .ok (.wfs w2)
  | .rofs _, _, _ => .error (.os .EROFS)

def bChownPub (ctx : Ctx) (fuel : Nat) : BranchFS → String → Nat → Nat → Except Err BranchFS
  | .wfs w, p, u, g =>
      match wChownPub ctx fuel w p u g with
      | .error e => .error e
      | .ok w2 => .ok (.wfs w2)
  | .rofs _, _, _, _ => .error (.os .EROFS)

def bSymlinkPub (ctx : Ctx) (fuel : Nat) : BranchFS → String → String → Except Err BranchFS
  | .wfs w, l, t =>
      match wSymlinkPub ctx fuel w l t with
      | .error e => .error e
      | .ok w2 => .ok (.wfs w2)
  | .rofs _, _, _ => .error (.os .EROFS)

def bUnlinkPub (fuel : Nat) : BranchFS → String → Except Err BranchFS
  | .wfs w, p =>
      match wUnlinkPub fuel w p with
      | .error e => .error e
      | .ok w2 => .ok (.wfs w2)
  | .rofs _, _ => .error (.os .EROFS)

def bOpenBinaryPub (ctx : Ctx) (fuel : Nat) : BranchFS → String → String →
    Except Err (Nat × BranchFS)
  | .wfs w, p, md =>
      match wOpenBinaryPub ctx fuel w p md with
      | .error e => .error e
      | .ok (r, w2) => .ok (r, .wfs w2)
  | .rofs m, p, md =>
      match roOpenBinaryPub ctx fuel m p md with
      | .error e => .error e
      | .ok (r, m2) => .ok (r, .rofs m2)

/-- Writing through an open BufferWrapper reaches the BytesIO of the
underlying MemoryFS regardless of the wrapping layers. -/
def bBufWrite : BranchFS → Nat → List Nat → Except Err BranchFS
  | .wfs w, r, bs =>
      match bufWrite w.mem r bs with
      | .error e => .error e
      | .ok m2 => .ok (.wfs ⟨w.cache, m2⟩)
  | .rofs m, r, bs =>
      match bufWrite m r bs with
      | .error e => .error e
      | .ok m2 => .ok (.rofs m2)

def bBufRead : BranchFS → Nat → Except Err (List Nat × BranchFS)
  | .wfs w, r =>
      match bufRead w.mem r with
      | .error e => .error e
      | .ok (d, m2) => .ok (d, .wfs ⟨w.cache, m2⟩)
  | .rofs m, r =>
      match bufRead m r with
      | .error e => .error e
      | .ok (d, m2) => .ok (d, .rofs m2)

/-- In-place replacement of the filesystem of the branch at a position. -/
def setFS : List Branch → Nat → BranchFS → List Branch
  | [], _, _ => []
  | b :: rest, 0, fs => ⟨b.rank, b.writable, fs⟩ :: rest
  | b :: rest, i + 1, fs => b :: setFS rest i fs

def UState.withFS (u : UState) (i : Nat) (fs : BranchFS) : UState :=
  ⟨setFS u.branches i fs, u.strict⟩

def UState.branchAt (u : UState) (i : Nat) : Except Err Branch :=
  match u.branches.get? i with
  | some b => .ok b
  | none => .error .internalHeap

inductive BStatus where
  | deleted | unknown | invalid | noperm | exist
  deriving DecidableEq, Repr

structure PStat where
  status : BStatus
  stats : Option StatR
  deriving DecidableEq, Repr

/-- UnionFS._get_branch_pstat: a per-branch stat outcome folded into a
status; DeletedObjectError is caught before the generic OSError clause,
and errors that are not OSError instances or carry an unexpected errno
propagate. -/
def uGetBranchPStat (fuel : Nat) (b : Branch) (path : String) : Except Err PStat :=
  match bStatPub fuel b.fs path with
  | .ok s => .ok ⟨.exist, some s⟩
  | .error .deleted => .ok ⟨.deleted, none⟩
  | .error e =>
      match errnoOf e with
      | some .ENOENT => .ok ⟨.unknown, none⟩
      | some .EACCES => .ok ⟨.noperm, none⟩
      | some .ENOTDIR => .ok ⟨.invalid, none⟩
      | _ => .error e

/-- UnionFS._get_read_branch: the first branch, in ascending rank order,
whose stat succeeds; a DeletedObjectError propagates, ENOENT moves on to
the next branch, anything else propagates. -/
def uGetReadBranchAux (fuel : Nat) (path : String) :
    List Branch → Nat → Except Err (Nat × Branch × StatR)
  | [], _ => .error (.os .ENOENT)
  | b :: rest, i =>
      match bStatPub fuel b.fs path with
      | .ok s => .ok (i, b, s)
      | .error .deleted => .error .deleted
      | .error e =>
          match errnoOf e with
          | some .ENOENT => uGetReadBranchAux fuel path rest (i + 1)
          | _ => .error e

def uGetReadBranch (fuel : Nat) (u : UState) (path : String) :
    Except Err (Nat × Branch × StatR) :=
  uGetReadBranchAux fuel path u.branches 0

/-- UnionFS._stat. -/
def uStatI (fuel : Nat) (u : UState) (path : String) : Except Err StatR :=
  match uGetReadBranch fuel u path with
  | .error e => .error e
  | .ok (_, _, s) => .ok s

def uStatPub (fuel : Nat) (u : UState) (path : String) : Except Err StatR :=
  uStatI fuel u (normpath path)

/-- BaseFS.isdir on the union. -/
def uIsdirPub (fuel : Nat) (u : UState) (path : String) : Except Err Bool :=
  match uStatPub fuel u path with
  | .error e => .error e
  | .ok s => .ok (S_ISDIR s.mode)

/-- UnionFS._access. -/
def uAccessI (ctx : Ctx) (fuel : Nat) (u : UState) (path : String) (mode : Nat) :
    Except Err Bool :=
  match uGetReadBranch fuel u path with
  | .error e => if accessSwallows e then .ok false else .error e
  | .ok (_, b, _) => bAccessPub ctx fuel b.fs path mode

def uAccessPub (ctx : Ctx) (fuel : Nat) (u : UState) (path : String) (mode : Nat) :
    Except Err Bool :=
  uAccessI ctx fuel u (normpath path) mode

/-- UnionFS._copy_stat: replicate mode then ownership onto the target
branch; OSError failures are suppressed unless the union is strict. -/
def uCopyStat (ctx : Ctx) (fuel : Nat) (u : UState) (i : Nat) (path : String)
    (stats : StatR) : Except Err UState :=
  match u.branchAt i with
  | .error e => .error e
  | .ok b =>
      match
        (match bChmodPub ctx fuel b.fs path (S_IMODE stats.mode) with
         | .ok fs2 => .ok (u.withFS i fs2)
         | .error e =>
             if isOSErrorClass e ∧ ¬ u.strict then .ok u else .error e :
          Except Err UState) with
      | .error e => .error e
      | .ok u2 =>
          match u2.branchAt i with
          | .error e => .error e
          | .ok b2 =>
              match bChownPub ctx fuel b2.fs path stats.uid stats.gid with
              | .ok fs3 => .ok (u2.withFS i fs3)
              | .error e =>
                  if isOSErrorClass e ∧ ¬ u2.strict then .ok u2 else .error e

/-- The loop of UnionFS._copy_tree over the ancestors of the path. -/
def uCopyTreeAux (ctx : Ctx) (fuel : Nat) :
    UState → Nat → List String → Except Err UState
  | u, _, [] => .ok u
  | u, i, comp :: rest =>
      match u.branchAt i with
      | .error e => .error e
      | .ok b =>
          match bAccessPub ctx fuel b.fs comp F_OK with
          | .error e => .error e
          | .ok true =>
              match bIsdirPub fuel b.fs comp with
              | .error e => .error e
              | .ok d =>
                  if ¬ d then .error (.os .ENOTDIR)
                  else uCopyTreeAux ctx fuel u i rest
          | .ok false =>
              match uStatPub fuel u comp with
              | .error e => .error e
              | .ok olds =>
                  match bMkdirPub ctx fuel b.fs comp with
                  | .error e => .error e
                  | .ok fs2 =>
                      match uCopyStat ctx fuel (u.withFS i fs2) i comp olds with
                      | .error e => .error e
                      | .ok u2 => uCopyTreeAux ctx fuel u2 i rest

def uCopyTree (ctx : Ctx) (fuel : Nat) (u : UState) (i : Nat) (path : String) :
    Except Err UState :=
  uCopyTreeAux ctx fuel u i (iterPath path)

/-- UnionFS._copy_object: replicate the object found in the old branch
into the target branch, then its mode and ownership. -/
def uCopyObject (ctx : Ctx) (fuel : Nat) (u : UState) (targetIdx oldIdx : Nat)
    (path : String) (forOverwrite : Bool) : Except Err UState :=
  match u.branchAt oldIdx with
  | .error e => .error e
  | .ok oldB =>
      match bLstatPub fuel oldB.fs path with
      | .error e => .error e
      | .ok olds =>
          if S_ISDIR olds.mode then
            match u.branchAt targetIdx with
            | .error e => .error e
            | .ok tb =>
                match bMkdirPub ctx fuel tb.fs path with
                | .error e => .error e
                | .ok fs2 => uCopyStat ctx fuel (u.withFS targetIdx fs2) targetIdx path olds
          else if S_ISLNK olds.mode then
            match bReadlinkPub fuel oldB.fs path with
            | .error e => .error e
            | .ok tgt =>
                match u.branchAt targetIdx with
                | .error e => .error e
                | .ok tb =>
                    match bSymlinkPub ctx fuel tb.fs path tgt with
                    | .error e => .error e
                    | .ok fs2 => uCopyStat ctx fuel (u.withFS targetIdx fs2) targetIdx path olds
          else if S_ISREG olds.mode then
            if forOverwrite then
              match u.branchAt targetIdx with
              | .error e => .error e
              | .ok tb =>
                  match bOpenBinaryPub ctx fuel tb.fs path "wb" with
                  | .error e => .error e
                  | .ok (r, fs2) =>
                      match bBufWrite fs2 r [] with
                      | .error e => .error e
                      | .ok fs3 => uCopyStat ctx fuel (u.withFS targetIdx fs3) targetIdx path olds
            else
              match bOpenBinaryPub ctx fuel oldB.fs path "rb" with
              | .error e => .error e
              | .ok (r1, ofs2) =>
                  let u2 := u.withFS oldIdx ofs2
                  match u2.branchAt targetIdx with
                  | .error e => .error e
                  | .ok tb =>
                      match bOpenBinaryPub ctx fuel tb.fs path "wb" with
                      | .error e => .error e
                      | .ok (r2, tfs2) =>
                          let u3 := u2.withFS targetIdx tfs2
                          match u3.branchAt oldIdx with
                          | .error e => .error e
                          | .ok ob2 =>
                              match bBufRead ob2.fs r1 with
                              | .error e => .error e
                              | .ok (data, ofs3) =>
                                  let u4 := u3.withFS oldIdx ofs3
                                  match u4.branchAt targetIdx with
                                  | .error e => .error e
                                  | .ok tb2 =>
                                      match bBufWrite tb2.fs r2 data with
                                      | .error e => .error e
                                      | .ok tfs3 =>
                                          uCopyStat ctx fuel (u4.withFS targetIdx tfs3)
                                            targetIdx path olds
          else .error .fsError

inductive ExpectKind where
  | any | yes | no
  deriving DecidableEq, Repr

/-- UnionFS._copy_on_write. -/
def uCopyOnWrite (ctx : Ctx) (fuel : Nat) (u : UState) (i : Nat)
    (targetPath : String) (expected : ExpectKind) (forOverwrite : Bool) :
    Except Err UState :=
  match uIsdirPub fuel u (dirname targetPath) with
  | .error e => .error e
  | .ok d =>
      if ¬ d then .error (.os .ENOTDIR)
      else
        match
          (match expected with
           | .yes =>
               match uAccessPub ctx fuel u targetPath F_OK with
               | .error e => .error e
               | .ok a => if ¬ a then .error (.os .ENOENT) else .ok ()
           | .no =>
               match uAccessPub ctx fuel u targetPath F_OK with
               | .error e => .error e
               | .ok a => if a then .error (.os .EEXIST) else .ok ()
           | .any => .ok () : Except Err Unit) with
        | .error e => .error e
        | .ok () =>
            match uCopyTree ctx fuel u i (dirname targetPath) with
            | .error e => .error e
            | .ok u2 =>
                match uGetReadBranch fuel u2 targetPath with
                | .ok (oldIdx, _, _) =>
                    uCopyObject ctx fuel u2 i oldIdx targetPath forOverwrite
                | .error e =>
                    if errnoOf e = some .ENOENT then .ok u2 else .error e

/-- Index of the first writable branch in ascending rank order. -/
def firstWritableIdx : List Branch → Nat → Option Nat
  | [], _ => none
  | b :: rest, i => if b.writable then some i else firstWritableIdx rest (i + 1)

/-- UnionFS._get_write_branch. -/
def uGetWriteBranch (ctx : Ctx) (fuel : Nat) (u : UState) (path : String)
    (expected : ExpectKind) (forOverwrite : Bool) : Except Err (Nat × UState) :=
  match firstWritableIdx u.branches 0 with
  | none => .error (.os .EACCES)
  | some i =>
      match uCopyOnWrite ctx fuel u i path expected forOverwrite with
      | .error e => .error e
      | .ok u2 => .ok (i, u2)

/-- UnionFS._unlink: copy-up with an existence requirement, then the
unlink of the writable branch, which is a whiteout insertion. -/
def uUnlinkI (ctx : Ctx) (fuel : Nat) (u : UState) (path : String) :
    Except Err UState :=
  match uGetWriteBranch ctx fuel u path .yes true with
  | .error e => .error e
  | .ok (i, u2) =>
      match u2.branchAt i with
      | .error e => .error e
      | .ok b =>
          match bUnlinkPub fuel b.fs path with
          | .error e => .error e
          | .ok fs2 => .ok (u2.withFS i fs2)

def uUnlinkPub (ctx : Ctx) (fuel : Nat) (u : UState) (path : String) :
    Except Err UState :=
  uUnlinkI ctx fuel u (normpath path)

/-- UnionFS._get_dir_branches: scan ascending; deleted, invalid, or noperm
stops the scan, unknown skips the branch, and an existing entry is kept
only when the access check with the mask R_OK AND X_OK (which is the
empty mask, so a pure existence test) succeeds and the entry is a
directory; otherwise the scan stops.  An existing status without stats
would make the source read st_mode of None, an AttributeError. -/
def uGetDirBranchesAux (ctx : Ctx) (fuel : Nat) (path : String) :
    List Branch → Except Err (List Branch)
  | [] => .ok []
  | b :: rest =>
      match uGetBranchPStat fuel b path with
      | .error e => .error e
      | .ok ⟨.deleted, _⟩ => .ok []
      | .ok ⟨.invalid, _⟩ => .ok []
      | .ok ⟨.noperm, _⟩ => .ok []
      | .ok ⟨.unknown, _⟩ => uGetDirBranchesAux ctx fuel path rest
      | .ok ⟨.exist, some s⟩ =>
          match bAccessPub ctx fuel b.fs path (R_OK &&& X_OK) with
          | .error e => .error e
          | .ok a =>
              if a ∧ S_ISDIR s.mode then
                match uGetDirBranchesAux ctx fuel path rest with
                | .error e => .error e
                | .ok bs => .ok (b :: bs)
              else .ok []
      | .ok ⟨.exist, none⟩ => .error .attributeError

/-- The cross-branch shadowing check of UnionFS._listdir for one new
member name.  The source stores the whole PStat named tuple returned by
_get_branch_pstat in the variable it then compares with the status
strings; in Python an equality between a tuple and a string is False, so
the DELETED test never fires and control falls through to an assertion
comparing the same tuple with the UNKNOWN string, which fails.  Any
execution of this loop body therefore raises AssertionError; only an
empty list of higher branches lets the member through. -/
def uCheckMember (fuel : Nat) (higher : List Branch) (memberPath : String) :
    Except Err Bool :=
  match higher with
  | [] => .ok true
  | hb :: _ =>
      match uGetBranchPStat fuel hb memberPath with
      | .error e => .error e
      | .ok _ => .error .assertionError

/-- The inner loop of UnionFS._listdir over the names one branch yields.
The seen and members sets are modeled as insertion-ordered deduplicated
lists. -/
def uProcessNames (fuel : Nat) (path : String) (higher : List Branch) :
    List String → List String → List String → Except Err (List String × List String)
  | [], seen, members => .ok (seen, members)
  | n :: ns, seen, members =>
      if n ∈ seen then uProcessNames fuel path higher ns seen members
      else
        match uCheckMember fuel higher (posixJoin path n) with
        | .error e => .error e
        | .ok valid =>
            uProcessNames fuel path higher ns (seen ++ [n])
              (if valid then members ++ [n] else members)

/-- The outer loop of UnionFS._listdir: the branches already processed are
exactly the higher-priority ones for the current branch. -/
def uListLoop (fuel : Nat) (path : String) :
    List Branch → List Branch → List String → List String → Except Err (List String)
  | [], _, _, members => .ok members
  | b :: rest, higher, seen, members =>
      match bListdirPub fuel b.fs path with
      | .error e => .error e
      | .ok names =>
          match uProcessNames fuel path higher names seen members with
          | .error e => .error e
          | .ok (seen2, members2) => uListLoop fuel path rest (higher ++ [b]) seen2 members2

/-- UnionFS._listdir. -/
def uListdirI (ctx : Ctx) (fuel : Nat) (u : UState) (path : String) :
    Except Err (List String) :=
  match uGetDirBranchesAux ctx fuel path u.branches with
  | .error e => .error e
  | .ok [] => .error (.os .ENOENT)
  | .ok bs => uListLoop fuel path bs [] [] []

def uListdirPub (ctx : Ctx) (fuel : Nat) (u : UState) (path : String) :
    Except Err (List String) :=
  match uListdirI ctx fuel u (normpath path) with
  | .error e => .error e
  | .ok items => .ok (items.map normpath)

/-! Part 7: concrete scenario states.

All backends are constructed with a default umask of 511 (octal 777), so
that, through the mode computation of the source, new directories carry
permission bits 777 and new files 666, and with default uid and gid 1000
matching the ambient process identity. -/

def specCtx : Ctx := ⟨1000, 1000⟩

def specFuel : Nat := 30

/-- Scenario S5: the lower read-only branch holds the directory and the
file with content lo; the upper writable whiteout-over-memory branch
holds the directory; the union deletes the file and lists the
directory. -/
def s5run : Except Err (Bool × List String) := do
  let m0 ← memMkdirPub specCtx specFuel (memInit 511 1000 1000) "/a"
  let (h0, m0) ← memOpenBinaryPub specCtx specFuel m0 "/a/f" "wb"
  let m0 ← bufWrite m0 h0 [108, 111]
  let w1 : WFS := ⟨[], memInit 511 1000 1000⟩
  let w1 ← wMkdirPub specCtx specFuel w1 "/a"
  let u : UState := ⟨[⟨0, true, .wfs w1⟩, ⟨10, false, .rofs m0⟩], false⟩
  let u ← uUnlinkPub specCtx specFuel u "/a/f"
  let acc ← uAccessPub specCtx specFuel u "/a/f" F_OK
  let l ← uListdirPub specCtx specFuel u "/a"
  pure (acc, l)

/-- The round trip of claim C2: create a directory and a file, write the
five bytes of hello through a wb handle, reopen rb, and read. -/
def c2run : Except Err (List Nat) := do
  let m ← memMkdirPub specCtx specFuel (memInit 511 1000 1000) "/a"
  let (h1, m) ← memOpenBinaryPub specCtx specFuel m "/a/f" "wb"
  let m ← bufWrite m h1 [104, 101, 108, 108, 111]
  let (h2, m) ← memOpenBinaryPub specCtx specFuel m "/a/f" "rb"
  let (data, _) ← bufRead m h2
  pure data

/-- A MemoryFS holding the directory a with the file x inside, built by
running the embedded operations. -/
def c3memE : Except Err MemState := do
  let m ← memMkdirPub specCtx specFuel (memInit 511 1000 1000) "/a"
  let (_, m) ← memOpenBinaryPub specCtx specFuel m "/a/x" "wb"
  pure m

def c3mem : MemState :=
  match c3memE with
  | .ok m => m
  | .error _ => memInit 511 1000 1000

/-- The run of claim C8: create a directory holding a file, then call
mkdir again on the same directory path and list it. -/
def c8run : Except Err (List String) := do
  let m ← memMkdirPub specCtx specFuel (memInit 511 1000 1000) "/a"
  let (_, m) ← memOpenBinaryPub specCtx specFuel m "/a/f" "wb"
  let m2 ← memMkdirPub specCtx specFuel m "/a"
  memListdirPub specFuel m2 "/a"

/-! Part 8: supporting lemmas. -/

theorem length_takeWhile_le {α : Type} (f : α → Bool) (l : List α) :
    (l.takeWhile f).length ≤ l.length := by
  induction l with
  | nil => simp [List.takeWhile]
  | cons c cs ih =>
      rw [List.takeWhile]
      cases f c
      · simp
      · simpa using ih

theorem length_dropWhile_le {α : Type} (f : α → Bool) (l : List α) :
    (l.dropWhile f).length ≤ l.length := by
  induction l with
  | nil => simp [List.dropWhile]
  | cons c cs ih =>
      rw [List.dropWhile]
      cases f c
      · simp
      · simp
        omega

theorem length_rstripSlashes_le (l : List Char) :
    (rstripSlashes l).length ≤ l.length := by
  unfold rstripSlashes
  rw [List.length_reverse]
  calc (l.reverse.dropWhile (fun c => c = '/')).length
      ≤ l.reverse.length := length_dropWhile_le _ _
    _ = l.length := List.length_reverse l

theorem headRawChars_length_lt (cs : List Char) (h : splitTailChars cs ≠ []) :
    (headRawChars cs).length < cs.length := by
  have htl : 1 ≤ (splitTailChars cs).length := by
    cases hh : splitTailChars cs with
    | nil => exact absurd hh h
    | cons a l => simp
  have htu : (splitTailChars cs).length ≤ cs.length := by
    unfold splitTailChars
    rw [List.length_reverse]
    calc (cs.reverse.takeWhile (fun c => c ≠ '/')).length
        ≤ cs.reverse.length := length_takeWhile_le _ _
      _ = cs.length := List.length_reverse cs
  unfold headRawChars
  rw [List.length_take]
  omega

theorem splitHeadChars_length_lt (cs : List Char) (h : splitTailChars cs ≠ []) :
    (splitHeadChars cs).length < cs.length := by
  unfold splitHeadChars
  by_cases hc : headRawChars cs ≠ [] ∧ (headRawChars cs).any (fun c => c ≠ '/')
  · rw [if_pos hc]
    exact lt_of_le_of_lt (length_rstripSlashes_le _) (headRawChars_length_lt cs h)
  · rw [if_neg hc]
    exact headRawChars_length_lt cs h

theorem posixSplit_fst_length_lt (p : String) (h : (posixSplit p).2 ≠ "") :
    (posixSplit p).1.length < p.length := by
  have h2 : splitTailChars p.data ≠ [] := by
    intro hc
    apply h
    show String.mk (splitTailChars p.data) = ""
    rw [hc]
  show (String.mk (splitHeadChars p.data)).length < p.length
  have he : (String.mk (splitHeadChars p.data)).length = (splitHeadChars p.data).length := rfl
  rw [he]
  exact splitHeadChars_length_lt p.data h2

theorem iterPathAux_fuel_irrel (fuel1 : Nat) :
    ∀ (fuel2 : Nat) (p : String), p.length < fuel1 → p.length < fuel2 →
      iterPathAux fuel1 p = iterPathAux fuel2 p := by
  induction fuel1 with
  | zero => intro fuel2 p h1; omega
  | succ f1 ih =>
      intro fuel2 p h1 h2
      cases fuel2 with
      | zero => omega
      | succ f2 =>
          show iterPathAux (f1 + 1) p = iterPathAux (f2 + 1) p
          rw [iterPathAux, iterPathAux]
          by_cases ht : (posixSplit p).2 = ""
          · rw [if_pos ht, if_pos ht]
          · rw [if_neg ht, if_neg ht]
            have hlt := posixSplit_fst_length_lt p ht
            rw [ih f2 (posixSplit p).1 (by omega) (by omega)]


theorem mem_iterPathAux_self (fuel : Nat) (p : String) (h : 0 < fuel) :
    p ∈ iterPathAux fuel p := by
  cases fuel with
  | zero => omega
  | succ f =>
      rw [iterPathAux]
      by_cases ht : (posixSplit p).2 = "" <;> simp [ht]

theorem mem_iterPath_self (p : String) (h : p ≠ "") : p ∈ iterPath p := by
  rw [iterPath, if_neg h]
  exact mem_iterPathAux_self _ _ (by omega)

theorem orDot_ne_empty (r : String) : orDot r ≠ "" := by
  unfold orDot
  split
  · decide
  · next h => exact h

theorem posixNormpath_ne_empty (p : String) : posixNormpath p ≠ "" := by
  unfold posixNormpath
  by_cases h0 : p = ""
  · simp [h0]
  · rw [if_neg h0]
    exact orDot_ne_empty _

theorem isabs_ne_empty (p : String) (h : isabs p = true) : p ≠ "" := by
  intro hc
  rw [hc] at h
  exact absurd h (by decide)

theorem normpath_ne_empty (p : String) : normpath p ≠ "" := by
  unfold normpath
  by_cases h : isabs p = true
  · rw [if_pos h]
    exact isabs_ne_empty p h
  · rw [if_neg h]
    exact posixNormpath_ne_empty p

/-! Lemmas on the association lists of the heap model. -/

theorem lookupS_assocSetS_self (l : List (String × Nat)) (k : String) (v : Nat) :
    lookupS (assocSetS l k v) k = some v := by
  induction l with
  | nil => simp [assocSetS, lookupS]
  | cons kv rest ih =>
      obtain ⟨k0, v0⟩ := kv
      by_cases h : k0 = k
      · simp [assocSetS, h, lookupS]
      · simp [assocSetS, h, lookupS, ih]

theorem lookupS_assocSetS_ne (l : List (String × Nat)) (k : String) (v : Nat)
    (q : String) (h : q ≠ k) : lookupS (assocSetS l k v) q = lookupS l q := by
  induction l with
  | nil => simp [assocSetS, lookupS, Ne.symm h]
  | cons kv rest ih =>
      obtain ⟨k0, v0⟩ := kv
      by_cases h0 : k0 = k
      · subst h0
        simp [assocSetS, lookupS, Ne.symm h]
      · by_cases hq : k0 = q
        · simp [assocSetS, h0, lookupS, hq, h]
        · simp [assocSetS, h0, lookupS, hq, ih]

theorem lookupN_heapSet_self (l : List (Nat × FakeObj)) (k : Nat) (v : FakeObj) :
    lookupN (heapSet l k v) k = some v := by
  induction l with
  | nil => simp [heapSet, lookupN]
  | cons kv rest ih =>
      obtain ⟨k0, v0⟩ := kv
      by_cases h : k0 = k
      · simp [heapSet, h, lookupN]
      · simp [heapSet, h, lookupN, ih]

theorem lookupN_heapSet_ne (l : List (Nat × FakeObj)) (k : Nat) (v : FakeObj)
    (q : Nat) (h : q ≠ k) : lookupN (heapSet l k v) q = lookupN l q := by
  induction l with
  | nil => simp [heapSet, lookupN, Ne.symm h]
  | cons kv rest ih =>
      obtain ⟨k0, v0⟩ := kv
      by_cases h0 : k0 = k
      · subst h0
        simp [heapSet, lookupN, Ne.symm h]
      · by_cases hq : k0 = q
        · simp [heapSet, h0, lookupN, hq, h]
        · simp [heapSet, h0, lookupN, hq, ih]

theorem lookupN_append_some (l t : List (Nat × FakeObj)) (q : Nat) (o : FakeObj)
    (h : lookupN l q = some o) : lookupN (l ++ t) q = some o := by
  induction l with
  | nil => simp [lookupN] at h
  | cons kv rest ih =>
      obtain ⟨k0, v0⟩ := kv
      by_cases h0 : k0 = q
      · simp [lookupN, h0] at h ⊢
        exact h
      · simp [lookupN, h0] at h ⊢
        exact ih h

theorem lookupN_append_none (l t : List (Nat × FakeObj)) (q : Nat)
    (h : lookupN l q = none) : lookupN (l ++ t) q = lookupN t q := by
  induction l with
  | nil => simp [lookupN]
  | cons kv rest ih =>
      obtain ⟨k0, v0⟩ := kv
      by_cases h0 : k0 = q
      · simp [lookupN, h0] at h
      · simp [lookupN, h0] at h ⊢
        exact ih h

theorem lookupN_gt_maxKey (l : List (Nat × FakeObj)) (q : Nat)
    (h : maxKeyN l < q) : lookupN l q = none := by
  induction l with
  | nil => simp [lookupN]
  | cons kv rest ih =>
      obtain ⟨k0, v0⟩ := kv
      rw [maxKeyN] at h
      have hk : k0 ≠ q := by omega
      simp [lookupN, hk]
      exact ih (by omega)

theorem lookupN_freshRef (l : List (Nat × FakeObj)) :
    lookupN l (freshRef l) = none :=
  lookupN_gt_maxKey l (freshRef l) (by unfold freshRef; omega)

/-! Fuel monotonicity of the path-index lookup. -/

theorem memGetR_mono (m : MemState) :
    ∀ (f : Nat) (q : String) (fo : Bool) (x : Nat × FakeObj) (g : Nat),
      memGetR m f q fo = .ok x → f ≤ g → memGetR m g q fo = .ok x := by
  intro f
  induction f with
  | zero => intro q fo x g h; rw [memGetR] at h; cases h
  | succ f ih =>
      intro q fo x g h hle
      cases g with
      | zero => omega
      | succ g =>
          rw [memGetR] at h ⊢
          cases hls : lookupS m.fullMap q with
          | none => rw [hls] at h; simp at h
          | some r =>
              rw [hls] at h
              dsimp only at h ⊢
              cases hln : lookupN m.heap r with
              | none => rw [hln] at h; simp at h
              | some o =>
                  rw [hln] at h
                  dsimp only at h ⊢
                  cases o with
                  | symlink mo u g0 s tgt =>
                      cases fo with
                      | true =>
                          dsimp only at h ⊢
                          exact ih tgt true x g h (by omega)
                      | false => exact h
                  | file mo u g0 s c p => exact h
                  | dir mo u g0 s cs => exact h

/-! Structure of a successful FakeDir.make_file call. -/

theorem makeFile_spec (ctx : Ctx) (m : MemState) (pr : Nat) (name fullpath : String)
    (r0 : Nat) (m2 : MemState) (h : makeFile ctx m pr name fullpath = .ok (r0, m2)) :
    ∃ pm pu pg ps cs,
      lookupN m.heap pr = some (.dir pm pu pg ps cs) ∧
      r0 = freshRef m.heap ∧
      m2 = ⟨heapSet m.heap pr (.dir pm pu pg ps (assocSetS cs name (freshRef m.heap))) ++
              [(freshRef m.heap,
                .file (default_file_mode m.defaultUmask ||| S_IFREG) m.defaultUid
                  (if pm &&& S_ISGID ≠ 0 then pg else m.defaultGid) 0 [] 0)],
            assocSetS m.fullMap fullpath (freshRef m.heap),
            m.defaultUmask, m.defaultUid, m.defaultGid⟩ := by
  unfold makeFile at h
  cases hpr : lookupN m.heap pr with
  | none => rw [hpr] at h; simp at h
  | some o =>
      rw [hpr] at h
      cases o with
      | file mo u g s c p => simp at h
      | symlink mo u g s t => simp at h
      | dir pm pu pg ps cs =>
          dsimp only at h
          split at h
          · cases h
          · cases h
            exact ⟨pm, pu, pg, ps, cs, rfl, rfl, rfl⟩

/-! Preservation of successful lookups and stats across a file creation.

The creation touches exactly one path-index key (the created path, which
every successful lookup chain avoids, since resolution through it fails),
mutates the parent directory object only in its contents, and allocates a
fresh reference; so every successful resolution, stat, and isdir answer
of the previous state survives unchanged. -/

theorem memGetR_pres (m : MemState) (pr : Nat) (pm pu pg ps : Nat)
    (cs : List (String × Nat)) (name fullpath : String) (F : Nat)
    (newObj : FakeObj) (m2 : MemState)
    (hpr : lookupN m.heap pr = some (.dir pm pu pg ps cs))
    (hq : ∀ x : Nat × FakeObj, ¬ memGetR m F fullpath true = .ok x)
    (hm2h : m2.heap = heapSet m.heap pr
        (.dir pm pu pg ps (assocSetS cs name (freshRef m.heap))) ++
        [(freshRef m.heap, newObj)])
    (hm2f : m2.fullMap = assocSetS m.fullMap fullpath (freshRef m.heap)) :
    ∀ fl, fl ≤ F → ∀ (q : String) (rr : Nat) (o : FakeObj),
      memGetR m fl q true = .ok (rr, o) →
      ∃ o2, memGetR m2 fl q true = .ok (rr, o2) ∧
        objStatFields o2 = objStatFields o ∧ o2.isSymlinkO = o.isSymlinkO := by
  intro fl
  induction fl with
  | zero => intro hle q rr o h; rw [memGetR] at h; cases h
  | succ fl ih =>
      intro hle q rr o h
      have horig := h
      have hqne : q ≠ fullpath := by
        intro he
        subst he
        exact hq (rr, o) (memGetR_mono m (fl + 1) q true (rr, o) F horig hle)
      rw [memGetR] at h
      cases hls : lookupS m.fullMap q with
      | none => rw [hls] at h; simp at h
      | some r1 =>
          rw [hls] at h
          dsimp only at h
          have hls2 : lookupS m2.fullMap q = some r1 := by
            rw [hm2f, lookupS_assocSetS_ne _ _ _ _ hqne, hls]
          cases hln : lookupN m.heap r1 with
          | none => rw [hln] at h; simp at h
          | some o1 =>
              rw [hln] at h
              dsimp only at h
              by_cases hrpr : r1 = pr
              · rw [hrpr] at hln
                rw [hpr] at hln
                injection hln with ho1
                subst ho1
                have hln2 : lookupN m2.heap r1 =
                    some (.dir pm pu pg ps (assocSetS cs name (freshRef m.heap))) := by
                  rw [hm2h, hrpr]
                  exact lookupN_append_some _ _ _ _ (lookupN_heapSet_self _ _ _)
                dsimp only at h
                cases h
                refine ⟨.dir pm pu pg ps (assocSetS cs name (freshRef m.heap)), ?_, rfl, rfl⟩
                rw [memGetR, hls2]
                dsimp only
                rw [hln2]
              · have hln2 : lookupN m2.heap r1 = some o1 := by
                  rw [hm2h]
                  exact lookupN_append_some _ _ _ _
                    ((lookupN_heapSet_ne _ _ _ _ hrpr).trans hln)
                cases o1 with
                | symlink mo u g0 s tgt =>
                    dsimp only at h
                    obtain ⟨o2, ho2, hfields, hsym⟩ :=
                      ih (by omega) tgt rr o h
                    refine ⟨o2, ?_, hfields, hsym⟩
                    rw [memGetR, hls2]
                    dsimp only
                    rw [hln2]
                    exact ho2
                | file mo u g0 s c p =>
                    dsimp only at h
                    cases h
                    refine ⟨.file mo u g0 s c p, ?_, rfl, rfl⟩
                    rw [memGetR, hls2]
                    dsimp only
                    rw [hln2]
                | dir mo u g0 s cs1 =>
                    dsimp only at h
                    cases h
                    refine ⟨.dir mo u g0 s cs1, ?_, rfl, rfl⟩
                    rw [memGetR, hls2]
                    dsimp only
                    rw [hln2]

theorem objStatE_ok_elim (o : FakeObj) (s : StatR) (h : objStatE o = .ok s) :
    o.isSymlinkO = false ∧ s = objStatFields o := by
  cases o with
  | symlink mo u g s0 t => cases h
  | file mo u g s0 c p => exact ⟨rfl, by cases h; rfl⟩
  | dir mo u g s0 cs => exact ⟨rfl, by cases h; rfl⟩

theorem objStatE_not_symlink (o : FakeObj) (h : o.isSymlinkO = false) :
    objStatE o = .ok (objStatFields o) := by
  cases o with
  | symlink mo u g s0 t => cases h
  | file mo u g s0 c p => rfl
  | dir mo u g s0 cs => rfl

theorem objAccess_zero (ctx : Ctx) (o : FakeObj) : objAccess ctx o F_OK = true := by
  unfold objAccess
  simp

/-! Transfer lemmas for the whiteout path checks. -/

theorem wCheckComponent_mem (fuel : Nat) (c : List String) (m : MemState)
    (part : String) (flag : Bool) (h : part ∈ c) :
    wCheckComponent fuel c m part flag = .error .deleted := by
  unfold wCheckComponent
  rw [if_pos h]

theorem wCheckComponent_ok_not_mem (fuel : Nat) (c : List String) (m : MemState)
    (part : String) (flag : Bool)
    (h : wCheckComponent fuel c m part flag = .ok ()) : part ∉ c := by
  intro hc
  rw [wCheckComponent_mem fuel c m part flag hc] at h
  cases h

theorem wCheckComponent_transfer (fuel : Nat) (c1 c2 : List String)
    (m1 m2 : MemState) (part : String) (flag : Bool)
    (h : wCheckComponent fuel c1 m1 part flag = .ok ())
    (hc : part ∈ c2 → part ∈ c1)
    (hm : ∀ q d, memIsdirPub fuel m1 q = .ok d → memIsdirPub fuel m2 q = .ok d) :
    wCheckComponent fuel c2 m2 part flag = .ok () := by
  have hn1 : part ∉ c1 := wCheckComponent_ok_not_mem fuel c1 m1 part flag h
  have hn2 : part ∉ c2 := fun hx => hn1 (hc hx)
  unfold wCheckComponent at h ⊢
  rw [if_neg hn1] at h
  rw [if_neg hn2]
  by_cases hf : flag = true
  · rw [if_pos hf] at h
    rw [if_pos hf]
    cases hd : memIsdirPub fuel m1 part with
    | error e => rw [hd] at h; simp at h
    | ok d =>
        rw [hd] at h
        rw [hm part d hd]
        exact h
  · rw [if_neg hf] at h
    rw [if_neg hf]

theorem wCheckList_transfer (fuel : Nat) (c1 c2 : List String) (m1 m2 : MemState)
    (top : String)
    (hc : ∀ x, x ∈ c2 → x ∈ c1)
    (hm : ∀ q d, memIsdirPub fuel m1 q = .ok d → memIsdirPub fuel m2 q = .ok d) :
    ∀ parts, wCheckList fuel c1 m1 top parts = .ok () →
      wCheckList fuel c2 m2 top parts = .ok () := by
  intro parts
  induction parts with
  | nil => intro _; rfl
  | cons part rest ih =>
      intro h
      rw [wCheckList] at h ⊢
      cases hcomp : wCheckComponent fuel c1 m1 part (top ≠ part) with
      | error e => rw [hcomp] at h; simp at h
      | ok u =>
          cases u
          rw [hcomp] at h
          dsimp only at h
          rw [wCheckComponent_transfer fuel c1 c2 m1 m2 part _ hcomp (hc part) hm]
          dsimp only
          exact ih h

theorem wCheckList_cons_deleted (fuel : Nat) (c : List String) (m : MemState)
    (top p : String) :
    ∀ parts, wCheckList fuel c m top parts = .ok () → p ∈ parts →
      wCheckList fuel (p :: c) m top parts = .error .deleted := by
  intro parts
  induction parts with
  | nil => intro _ hp; simp at hp
  | cons part rest ih =>
      intro h hp
      rw [wCheckList] at h ⊢
      cases hcomp : wCheckComponent fuel c m part (top ≠ part) with
      | error e => rw [hcomp] at h; simp at h
      | ok u =>
          cases u
          rw [hcomp] at h
          dsimp only at h
          by_cases hpp : part = p
          · subst hpp
            rw [wCheckComponent_mem fuel (part :: c) m part _ (by simp)]
          · have hcomp2 : wCheckComponent fuel (p :: c) m part (top ≠ part) = .ok () := by
              refine wCheckComponent_transfer fuel c (p :: c) m m part _ hcomp ?_
                (fun q d hd => hd)
              intro hx
              rcases List.mem_cons.mp hx with h1 | h1
              · exact absurd h1 hpp
              · exact h1
            rw [hcomp2]
            dsimp only
            refine ih h ?_
            rcases List.mem_cons.mp hp with h1 | h1
            · exact absurd h1.symm hpp
            · exact h1

theorem wCheckList_mem_cached_ne_ok (fuel : Nat) (c : List String) (m : MemState)
    (top p : String) (hpc : p ∈ c) :
    ∀ parts, p ∈ parts → wCheckList fuel c m top parts ≠ .ok () := by
  intro parts
  induction parts with
  | nil => intro hp; simp at hp
  | cons part rest ih =>
      intro hp h
      rw [wCheckList] at h
      by_cases hpp : part = p
      · subst hpp
        rw [wCheckComponent_mem fuel c m part _ hpc] at h
        simp at h
      · cases hcomp : wCheckComponent fuel c m part (top ≠ part) with
        | error e => rw [hcomp] at h; simp at h
        | ok u =>
            cases u
            rw [hcomp] at h
            dsimp only at h
            refine ih ?_ h
            rcases List.mem_cons.mp hp with h1 | h1
            · exact absurd h1.symm hpp
            · exact h1

/-! Case analysis of a successful MemoryFS open, and the consequences used
by the resurrection property: stats of other paths are preserved and the
opened path resolves afterwards. -/

theorem memOpenBinaryI_cases (ctx : Ctx) (F : Nat) (m : MemState) (path mode : String)
    (r0 : Nat) (m2 : MemState)
    (h : memOpenBinaryI ctx F m path mode = .ok (r0, m2)) :
    (∃ o2, memGetR m F path true = .ok (r0, o2) ∧ m2 = m) ∨
    (∃ pr pm pu pg ps cs,
      memGetR m F path true = .error .keyError ∧
      lookupN m.heap pr = some (.dir pm pu pg ps cs) ∧
      r0 = freshRef m.heap ∧
      m2 = ⟨heapSet m.heap pr
              (.dir pm pu pg ps (assocSetS cs (basename path) (freshRef m.heap))) ++
              [(freshRef m.heap,
                .file (default_file_mode m.defaultUmask ||| S_IFREG) m.defaultUid
                  (if pm &&& S_ISGID ≠ 0 then pg else m.defaultGid) 0 [] 0)],
            assocSetS m.fullMap path (freshRef m.heap),
            m.defaultUmask, m.defaultUid, m.defaultGid⟩) := by
  unfold memOpenBinaryI at h
  cases hgc : memGetOrCreateFile ctx F m path mode with
  | error e => rw [hgc] at h; simp at h
  | ok x =>
      obtain ⟨rx, mx⟩ := x
      rw [hgc] at h
      dsimp only at h
      have hrm : r0 = rx ∧ m2 = mx := by
        cases hlk : lookupN mx.heap rx with
        | none => rw [hlk] at h; simp at h
        | some o =>
            rw [hlk] at h
            cases o with
            | file mo u g s c p =>
                dsimp only at h
                split at h
                · cases h
                · injection h with hpair
                  exact ⟨(congrArg Prod.fst hpair).symm, (congrArg Prod.snd hpair).symm⟩
            | dir mo u g s cs => simp at h
            | symlink mo u g s t => simp at h
      obtain ⟨hr0, hm2⟩ := hrm
      unfold memGetOrCreateFile at hgc
      cases hg : memGetR m F path true with
      | ok y =>
          obtain ⟨rg, og⟩ := y
          rw [hg] at hgc
          dsimp only at hgc
          injection hgc with hpair2
          rw [Prod.mk.injEq] at hpair2
          obtain ⟨hrg, hmx⟩ := hpair2
          left
          refine ⟨og, ?_, ?_⟩
          · rw [hr0, ← hrg]
          · rw [hm2, ← hmx]
      | error e =>
          rw [hg] at hgc
          cases e with
          | keyError =>
              dsimp only at hgc
              split at hgc
              · cases hgc
              · cases hp : memGetParent F m path with
                | error e2 => rw [hp] at hgc; simp at hgc
                | ok y =>
                    obtain ⟨pr, po⟩ := y
                    rw [hp] at hgc
                    dsimp only at hgc
                    obtain ⟨pm, pu, pg, ps, cs, hpr, hrx, hmx⟩ :=
                      makeFile_spec ctx m pr (basename path) path rx mx hgc
                    right
                    refine ⟨pr, pm, pu, pg, ps, cs, rfl, hpr, ?_, ?_⟩
                    · rw [hr0, hrx]
                    · rw [hm2, hmx]
          | os c => simp at hgc
          | deleted => simp at hgc
          | fsError => simp at hgc
          | typeError => simp at hgc
          | attributeError => simp at hgc
          | assertionError => simp at hgc
          | valueError => simp at hgc
          | recursionError => simp at hgc
          | internalHeap => simp at hgc

theorem memStatPub_pres (m : MemState) (pr : Nat) (pm pu pg ps : Nat)
    (cs : List (String × Nat)) (name fullpath : String) (F : Nat)
    (newObj : FakeObj) (m2 : MemState)
    (hpr : lookupN m.heap pr = some (.dir pm pu pg ps cs))
    (hq : ∀ x : Nat × FakeObj, ¬ memGetR m F fullpath true = .ok x)
    (hm2h : m2.heap = heapSet m.heap pr
        (.dir pm pu pg ps (assocSetS cs name (freshRef m.heap))) ++
        [(freshRef m.heap, newObj)])
    (hm2f : m2.fullMap = assocSetS m.fullMap fullpath (freshRef m.heap)) :
    ∀ q s, memStatPub F m q = .ok s → memStatPub F m2 q = .ok s := by
  intro q s h
  unfold memStatPub memStatI at h ⊢
  cases hg : memGetR m F (normpath q) true with
  | error e =>
      rw [hg] at h
      cases e <;> simp at h
  | ok x =>
      obtain ⟨rr, o⟩ := x
      rw [hg] at h
      dsimp only at h
      obtain ⟨o2, hg2, hfields, hsym⟩ :=
        memGetR_pres m pr pm pu pg ps cs name fullpath F newObj m2 hpr hq hm2h hm2f
          F (le_refl F) (normpath q) rr o hg
      rw [hg2]
      dsimp only
      obtain ⟨hns, hs⟩ := objStatE_ok_elim o s h
      rw [objStatE_not_symlink o2 (hsym.trans hns), hfields, hs]

theorem memIsdirPub_pres (m : MemState) (pr : Nat) (pm pu pg ps : Nat)
    (cs : List (String × Nat)) (name fullpath : String) (F : Nat)
    (newObj : FakeObj) (m2 : MemState)
    (hpr : lookupN m.heap pr = some (.dir pm pu pg ps cs))
    (hq : ∀ x : Nat × FakeObj, ¬ memGetR m F fullpath true = .ok x)
    (hm2h : m2.heap = heapSet m.heap pr
        (.dir pm pu pg ps (assocSetS cs name (freshRef m.heap))) ++
        [(freshRef m.heap, newObj)])
    (hm2f : m2.fullMap = assocSetS m.fullMap fullpath (freshRef m.heap)) :
    ∀ q d, memIsdirPub F m q = .ok d → memIsdirPub F m2 q = .ok d := by
  intro q d h
  unfold memIsdirPub at h ⊢
  cases hs : memStatPub F m q with
  | error e => rw [hs] at h; simp at h
  | ok s =>
      rw [hs] at h
      rw [memStatPub_pres m pr pm pu pg ps cs name fullpath F newObj m2
        hpr hq hm2h hm2f q s hs]
      exact h

theorem memOpen_isdir_pres (ctx : Ctx) (F : Nat) (m : MemState) (path mode : String)
    (r0 : Nat) (m2 : MemState)
    (h : memOpenBinaryI ctx F m path mode = .ok (r0, m2)) :
    ∀ q d, memIsdirPub F m q = .ok d → memIsdirPub F m2 q = .ok d := by
  rcases memOpenBinaryI_cases ctx F m path mode r0 m2 h with
    ⟨o2, _, hm2⟩ | ⟨pr, pm, pu, pg, ps, cs, hkey, hpr, _, hm2⟩
  · rw [hm2]
    exact fun q d hd => hd
  · refine memIsdirPub_pres m pr pm pu pg ps cs (basename path) path F
      (.file (default_file_mode m.defaultUmask ||| S_IFREG) m.defaultUid
        (if pm &&& S_ISGID ≠ 0 then pg else m.defaultGid) 0 [] 0) m2 hpr ?_ ?_ ?_
    · intro x hx
      rw [hkey] at hx
      cases hx
    · rw [hm2]
    · rw [hm2]

theorem memOpen_access_true (ctx : Ctx) (F : Nat) (m : MemState) (path mode : String)
    (r0 : Nat) (m2 : MemState)
    (h : memOpenBinaryI ctx F m path mode = .ok (r0, m2)) :
    memAccessI ctx F m2 path F_OK = .ok true := by
  rcases memOpenBinaryI_cases ctx F m path mode r0 m2 h with
    ⟨o2, hg, hm2⟩ | ⟨pr, pm, pu, pg, ps, cs, hkey, hpr, _, hm2⟩
  · subst hm2
    unfold memAccessI
    rw [hg]
    dsimp only
    rw [objAccess_zero]
  · cases F with
    | zero => rw [memGetR] at hkey; cases hkey
    | succ F1 =>
        have hfr : freshRef m.heap ≠ pr := by
          intro he
          rw [← he, lookupN_freshRef] at hpr
          cases hpr
        have hget : memGetR m2 (F1 + 1) path true =
            .ok (freshRef m.heap,
              .file (default_file_mode m.defaultUmask ||| S_IFREG) m.defaultUid
                (if pm &&& S_ISGID ≠ 0 then pg else m.defaultGid) 0 [] 0) := by
          rw [memGetR]
          have hl1 : lookupS m2.fullMap path = some (freshRef m.heap) := by
            rw [hm2]
            exact lookupS_assocSetS_self _ _ _
          rw [hl1]
          dsimp only
          have hl2 : lookupN m2.heap (freshRef m.heap) =
              some (.file (default_file_mode m.defaultUmask ||| S_IFREG) m.defaultUid
                (if pm &&& S_ISGID ≠ 0 then pg else m.defaultGid) 0 [] 0) := by
            rw [hm2]
            dsimp only
            rw [lookupN_append_none]
            · simp [lookupN]
            · rw [lookupN_heapSet_ne _ _ _ _ hfr]
              exact lookupN_freshRef m.heap
          rw [hl2]
        unfold memAccessI
        rw [hget]
        dsimp only
        rw [objAccess_zero]

/-! Part 9: claim theorems. -/

/-- C1: the claim states that in the S5 scenario, after the union unlink
of the file succeeds, listdir of the directory no longer contains the
child name (returning the empty list) and raises no error, and that in
general a listdir child from a lower branch is omitted exactly when a
higher branch reports the child path DELETED.  The code disagrees: the
access check does report false, but listdir returns the list holding the
child name, because WhiteoutFS._listdir filters the inner names by cache
membership of the bare name while the cache stores the full path, so the
whiteout never hides the entry that copy-up created in the writable
branch; moreover the cross-branch DELETED rule of UnionFS._listdir
compares a named tuple with a status string (always false in Python) and
then fails its own assertion whenever a lower branch contributes a new
name, as uCheckMember records.  This theorem evaluates the embedded code
on the scenario. -/
theorem C1_union_delete_listdir : s5run = .ok (false, ["f"]) := by decide

/-- C2: the claim states that for MemoryFS, writing a byte string through
a wb handle and then reading through a fresh rb handle returns exactly
the written bytes.  The code disagrees: both handles alias the same
BytesIO, whose position the write leaves at the end, and neither FakeFile
nor BufferWrapper rewinds or truncates it, so the read returns the empty
byte string.  This theorem evaluates the embedded code on the hello
run. -/
theorem C2_memory_write_read_roundtrip : c2run = .ok [] := by decide

/-- C5 counterexample: the claim states that the path normalization
collapses dot and dotdot segments of absolute paths, mapping the sample
absolute path to its collapsed form.  The code returns absolute paths
unchanged. -/
theorem C5_normpath_absolute_counterexample :
    ¬ (normpath "/a/./b/../c" = "/a/c") := by decide

/-- C5 amended: the path-normalization function applied on entry to every
operation leaves absolute paths unchanged, and collapses dot and dotdot
segments of relative paths. -/
theorem C5_normpath_amended :
    (∀ p : String, isabs p = true → normpath p = p) ∧
      normpath "a/./b/../c" = "a/c" ∧
      normpath "/a/./b/../c" = "/a/./b/../c" := by
  refine ⟨fun p h => ?_, by decide, by decide⟩
  simp [normpath, h]

/-- Witness for the amended C5 theorem at a concrete absolute path. -/
theorem C5_normpath_amended_witness : normpath "/x/./y" = "/x/./y" :=
  C5_normpath_amended.1 "/x/./y" rfl

/-- C6: the claim states that a ChrootFS with external root e and internal
root i fails EACCES on paths outside e and otherwise forwards the path
with the prefix e replaced by i, so that the path e joined with rest maps
to i joined with rest.  The code disagrees on the substitution: the
character suffix kept after stripping e starts with a slash whenever e
does not end in one, and os.path.join discards the internal root in that
case, so the sample path below maps to the bare suffix instead of the
prefixed one.  The EACCES half behaves as claimed. -/
theorem C6_chroot_prefix_substitution :
    chrootConvertIn "/" "/ext" "/int" "/ext/a" = .ok "/a" ∧
      ("/a" : String) ≠ "/int/a" ∧
      chrootConvertIn "/" "/ext" "/int" "/other/x" = .error (.os .EACCES) := by
  decide

/-- C7: the claim states that after MemoryFS symlink succeeds, readlink
returns the target string.  The code disagrees: symlink can never
succeed, because FakeDir.make_symlink constructs FakeSymlink without the
path argument that FakeFSObject.__init__ requires, raising TypeError
after the parent and permission checks pass; and even the readlink body
reads a path attribute off the stored target string.  This theorem
evaluates the embedded symlink on a fresh MemoryFS with an existing,
writable parent. -/
theorem C7_symlink_readlink :
    memSymlinkPub specCtx specFuel (memInit 511 1000 1000) "/l" "/t" =
      .error .typeError := by decide

/-- C8: the claim states that MemoryFS mkdir fails with EEXIST on every
existing path and never succeeds on one.  The code disagrees: neither
MemoryFS._mkdir nor FakeDir.make_subdir checks for an existing entry, so
a second mkdir on the same path succeeds and silently replaces the old
directory, as this evaluation shows: after creating the directory with a
file inside, mkdir on it succeeds again and the listing comes back
empty. -/
theorem C8_mkdir_existing : c8run = .ok [] := by decide

/-- C9: the claim states that the default directory mode is 777 AND NOT
umask, the default file mode is 666 AND NOT umask, and the symlink mode
is 777.  The code disagrees on the first two: it computes 777 AND umask
and 666 AND umask, omitting the complement, so with the common umask 022
the defaults come out as 022 instead of 755 and 644.  The symlink mode
matches the claim. -/
theorem C9_default_modes :
    default_dir_mode 0o022 = 0o022 ∧
      default_file_mode 0o022 = 0o022 ∧
      default_symlink_mode = 0o777 ∧
      default_dir_mode 0o022 ≠ 0o777 &&& (0o777 ^^^ 0o022) ∧
      default_file_mode 0o022 ≠ 0o666 &&& (0o777 ^^^ 0o022) := by decide

/-- C10: for every ReadOnlyFS, every path, and every access mask
containing the write bit, access answers false without raising and
without consulting the wrapped filesystem: the result is the same for
every wrapped access function, including one that would grant write
access on an existing path. -/
theorem C10_readonly_access_write_mask
    (wrapped : String → Nat → Except Err Bool) (path : String) (mode : Nat)
    (h : mode &&& W_OK ≠ 0) :
    readonlyAccessPub wrapped path mode = .ok false := by
  unfold readonlyAccessPub readonlyAccessI
  rw [if_pos h]

/-- Witness for C10 at a wrapped filesystem that grants everything, an
existing path, and a mask with the write bit. -/
theorem C10_readonly_access_write_mask_witness :
    readonlyAccessPub (fun _ _ => .ok true) "/x" 6 = .ok false :=
  C10_readonly_access_write_mask (fun _ _ => .ok true) "/x" 6 (by decide)

/-- C3: for every WhiteoutFS over the MemoryFS backend and every path, a
successful unlink leaves the inner filesystem untouched (the unlink only
reads the inner state through the path checks and then inserts the path
into the whiteout cache), makes access with F underscore OK report false,
and in particular leaves the inner access answer unchanged. -/
theorem C3_whiteout_unlink_frame (ctx : Ctx) (fuel : Nat) (w : WFS) (p : String)
    (w2 : WFS) (h : wUnlinkPub fuel w p = .ok w2) :
    w2.mem = w.mem ∧ wAccessPub ctx fuel w2 p F_OK = .ok false ∧
      memAccessPub ctx fuel w2.mem p F_OK = memAccessPub ctx fuel w.mem p F_OK := by
  unfold wUnlinkPub wUnlinkI at h
  cases hchk : wCheckPath fuel w.cache w.mem (normpath p) with
  | error e => rw [hchk] at h; simp at h
  | ok u =>
      cases u
      rw [hchk] at h
      dsimp only at h
      injection h with hw2
      subst hw2
      refine ⟨rfl, ?_, rfl⟩
      unfold wAccessPub wAccessI
      have hdel : wCheckPath fuel (normpath p :: w.cache) w.mem (normpath p) =
          .error .deleted := by
        unfold wCheckPath at hchk ⊢
        exact wCheckList_cons_deleted fuel w.cache w.mem (normpath p) (normpath p)
          (iterPath (normpath p)) hchk (mem_iterPath_self _ (normpath_ne_empty p))
      dsimp only
      rw [hdel]
      rfl

/-- Witness for C3: a fresh MemoryFS under an empty whiteout cache, and
the unlink of the root path, which the check lets through because the
root needs no ancestor directory. -/
theorem C3_whiteout_unlink_frame_witness :
    (WFS.mk ["/"] (memInit 511 1000 1000)).mem = (WFS.mk [] (memInit 511 1000 1000)).mem ∧
      wAccessPub specCtx specFuel (WFS.mk ["/"] (memInit 511 1000 1000)) "/" F_OK =
        .ok false ∧
      memAccessPub specCtx specFuel (WFS.mk ["/"] (memInit 511 1000 1000)).mem "/" F_OK =
        memAccessPub specCtx specFuel (WFS.mk [] (memInit 511 1000 1000)).mem "/" F_OK :=
  C3_whiteout_unlink_frame specCtx specFuel ⟨[], memInit 511 1000 1000⟩ "/"
    ⟨["/"], memInit 511 1000 1000⟩ (by decide)

/-- C4: for every WhiteoutFS over the MemoryFS backend and every path, if
an unlink succeeds and a following binary open for writing succeeds, the
path has been removed from the whiteout cache (resurrection) and access
with F underscore OK reports true. -/
theorem C4_whiteout_resurrection (ctx : Ctx) (fuel : Nat) (w : WFS) (p : String)
    (w1 : WFS) (r : Nat) (w2 : WFS)
    (h1 : wUnlinkPub fuel w p = .ok w1)
    (h2 : wOpenBinaryPub ctx fuel w1 p "wb" = .ok (r, w2)) :
    normpath p ∉ w2.cache ∧ wAccessPub ctx fuel w2 p F_OK = .ok true := by
  unfold wUnlinkPub wUnlinkI at h1
  cases hchk : wCheckPath fuel w.cache w.mem (normpath p) with
  | error e => rw [hchk] at h1; simp at h1
  | ok u =>
    cases u
    rw [hchk] at h1
    dsimp only at h1
    injection h1 with hw1
    subst hw1
    unfold wOpenBinaryPub wOpenBinaryI at h2
    rw [if_neg (by decide : ¬ is_readonly_open_mode "wb" = true)] at h2
    cases hacc : wAccessPub ctx fuel ⟨normpath p :: w.cache, w.mem⟩ (normpath p) F_OK with
    | error e => rw [hacc] at h2; simp at h2
    | ok b =>
        rw [hacc] at h2
        dsimp only at h2
        cases b with
        | true =>
            exfalso
            unfold wOpenRest at h2
            rw [if_neg (by decide : ¬ (!true) = true)] at h2
            dsimp only at h2
            cases hchk2 : wCheckPath fuel (normpath p :: w.cache) w.mem (normpath p) with
            | error e => rw [hchk2] at h2; simp at h2
            | ok u =>
                cases u
                refine wCheckList_mem_cached_ne_ok fuel (normpath p :: w.cache) w.mem
                  (normpath p) (normpath p) (by simp) (iterPath (normpath p))
                  (mem_iterPath_self _ (normpath_ne_empty p)) ?_
                unfold wCheckPath at hchk2
                exact hchk2
        | false =>
            unfold wOpenRest at h2
            rw [if_pos (by decide : (!false) = true)] at h2
            dsimp only at h2
            cases hpar : wCheckPath fuel (normpath p :: w.cache) w.mem
                (dirname (normpath p)) with
            | error e => rw [hpar] at h2; simp at h2
            | ok u =>
                cases u
                rw [hpar] at h2
                dsimp only at h2
                cases hopen : memOpenBinaryPub ctx fuel w.mem (normpath p) "wb" with
                | error e => rw [hopen] at h2; simp at h2
                | ok x =>
                    obtain ⟨r0, m2⟩ := x
                    rw [hopen] at h2
                    dsimp only at h2
                    injection h2 with hpair
                    rw [Prod.mk.injEq] at hpair
                    obtain ⟨hr, hw2⟩ := hpair
                    unfold memOpenBinaryPub at hopen
                    have hpres : ∀ q d, memIsdirPub fuel w.mem q = .ok d →
                        memIsdirPub fuel m2 q = .ok d :=
                      memOpen_isdir_pres ctx fuel w.mem (normpath (normpath p)) "wb"
                        r0 m2 hopen
                    constructor
                    · rw [← hw2]
                      simp
                    · rw [← hw2]
                      unfold wAccessPub wAccessI
                      dsimp only
                      have hchk3 : wCheckPath fuel
                          ((normpath p :: w.cache).filter (fun q => q ≠ normpath p)) m2
                          (normpath p) = .ok () := by
                        unfold wCheckPath at hchk ⊢
                        refine wCheckList_transfer fuel w.cache _ w.mem m2 (normpath p)
                          ?_ hpres (iterPath (normpath p)) hchk
                        intro x hx
                        have hx2 := List.mem_filter.mp hx
                        rcases List.mem_cons.mp hx2.1 with h1 | h1
                        · exact absurd h1 (by simpa using hx2.2)
                        · exact h1
                      rw [hchk3]
                      dsimp only
                      exact memOpen_access_true ctx fuel w.mem (normpath (normpath p))
                        "wb" r0 m2 hopen

/-- Witness for C4: a MemoryFS holding a directory with one file, whose
unlink and re-open for writing exercise the resurrection path. -/
theorem C4_whiteout_resurrection_witness :
    normpath "/a/x" ∉ (WFS.mk [] c3mem).cache ∧
      wAccessPub specCtx specFuel (WFS.mk [] c3mem) "/a/x" F_OK = .ok true :=
  C4_whiteout_resurrection specCtx specFuel ⟨[], c3mem⟩ "/a/x"
    ⟨["/a/x"], c3mem⟩ 2 ⟨[], c3mem⟩ (by decide) (by decide)

end Fslib
